import Mathlib

/-!
Verification of the symbol-resolution engine of the linker
(`SymbolTable.cpp`, templated `SymbolTable<ELFT>`), as a shallow
embedding.  The data model (symbol bodies, per-name envelopes, the name
index) follows the source; machine integers are modelled as `Nat`
(the relevant ELF constants are tiny and no arithmetic overflows), file
handles and memory buffers are modelled by their parsed contents, and
diagnostics (`error` / `warning` sinks) are accumulated in the state.

External collaborators that the engine calls (the per-format parsers,
`demangle`, `getFilename`) are modelled from the specification where
their code is not part of the repository; each such definition carries
a doc comment saying so.  The input-compatibility check (`isCompatible`)
and the bitcode/LTO path are outside every claim and are not modelled;
all modelled inputs are taken to be of the link's architecture.
-/

namespace LldElf

/-! ELF constants, from the values in `llvm/Support/ELF.h` (external to
the repository; these are the standard gABI values). -/

def STB_LOCAL : Nat := 0
def STB_GLOBAL : Nat := 1
def STB_WEAK : Nat := 2

def STV_DEFAULT : Nat := 0
def STV_INTERNAL : Nat := 1
def STV_HIDDEN : Nat := 2
def STV_PROTECTED : Nat := 3

def STT_NOTYPE : Nat := 0
def STT_TLS : Nat := 6

def VER_NDX_LOCAL : Nat := 0
def VER_NDX_GLOBAL : Nat := 1
def VERSYM_HIDDEN : Nat := 0x8000

/-- `SymbolBody::UnknownType`: sentinel type value used for lazy symbols
whose type is not yet known (value external to the sources under `src/`;
any value distinct from the `STT_*` codes works, the source stores it in
a `uint8_t`). -/
def UnknownType : Nat := 255

/-- A diagnostic produced through the `error` / `warning` sinks. -/
inductive Diag where
  | errorD (msg : String)
  | warningD (msg : String)
deriving Repr, DecidableEq

/-- One symbol record delivered by the object-file parser to the engine:
an undefined reference, a regular (section-bound) definition, or a
common (tentative) definition. -/
inductive SymRecord where
  | undef (name : String) (binding stOther styp : Nat)
  | regular (name : String) (binding styp stOther value : Nat) (sec : Option String)
  | common (name : String) (size alignment binding stOther styp : Nat)
deriving Repr, DecidableEq

/-- A parsed relocatable object file: its name and its symbol records.
An archive member's buffer, once fetched, is parsed into this. -/
structure ObjFile where
  oname : String
  syms : List SymRecord
deriving Repr, DecidableEq

/-- One symbol of a shared library, with the attributes `addShared`
consumes from the `Elf_Sym` and the version-definition reference. -/
structure SharedSymRec where
  sname : String
  styp : Nat
  visibility : Nat
  verdef : Option Nat
deriving Repr, DecidableEq

/-- A parsed shared library: file name, soname, symbols. -/
structure SharedFileRec where
  fname : String
  soname : String
  syms : List SharedSymRec
deriving Repr, DecidableEq

/-- One entry of an archive's symbol index: the symbol name and the
member buffer `getMember` returns for it (`none` models the empty
buffer). -/
structure ArchiveLazySym where
  sname : String
  member : Option ObjFile
deriving Repr, DecidableEq

/-- A parsed archive file: its name and its symbol index. -/
structure ArchiveRec where
  fname : String
  syms : List ArchiveLazySym
deriving Repr, DecidableEq

/-- A lazy object file: its name, the names of the symbols it would
provide, and its buffer (`none` models the empty buffer). -/
structure LazyObjFileRec where
  fname : String
  names : List String
  content : Option ObjFile
deriving Repr, DecidableEq

/-- An input file handed to `SymbolTable::addFile`. -/
inductive InputFile where
  | object (f : ObjFile)
  | archive (f : ArchiveRec)
  | sharedLib (f : SharedFileRec)
  | lazyObj (f : LazyObjFileRec)
deriving Repr, DecidableEq

/-- The engine's `SymbolBody` variants (the source's class hierarchy as
a sum type).  `uninit` stands for the body slot of a freshly allocated
`Symbol` before the caller's `replaceBody`; the source never reads it. -/
inductive SymbolBody where
  | uninit (name : String)
  | undefinedB (name : String) (stOther styp : Nat) (file : Option String)
  | definedRegular (name : String) (binding styp stOther value : Nat) (sec : Option String)
  | definedCommon (name : String) (size alignment stOther styp : Nat)
  | sharedB (file : String) (name : String) (styp visibility : Nat) (verdef : Option Nat)
  | lazyArchive (file : String) (name : String) (member : Option ObjFile) (styp : Nat)
  | lazyObject (name : String) (content : Option ObjFile) (styp : Nat)
deriving Repr, DecidableEq

namespace SymbolBody

def isUndefined : SymbolBody → Bool
  | .undefinedB _ _ _ _ => true
  | _ => false

def isLazy : SymbolBody → Bool
  | .lazyArchive _ _ _ _ => true
  | .lazyObject _ _ _ => true
  | _ => false

def isShared : SymbolBody → Bool
  | .sharedB _ _ _ _ _ => true
  | _ => false

def isCommon : SymbolBody → Bool
  | .definedCommon _ _ _ _ _ => true
  | _ => false

def nameOf : SymbolBody → String
  | .uninit n => n
  | .undefinedB n _ _ _ => n
  | .definedRegular n _ _ _ _ _ => n
  | .definedCommon n _ _ _ _ => n
  | .sharedB _ n _ _ _ => n
  | .lazyArchive _ n _ _ => n
  | .lazyObject n _ _ => n

/-- The body's `Type` field. -/
def typeOf : SymbolBody → Nat
  | .uninit _ => UnknownType
  | .undefinedB _ _ t _ => t
  | .definedRegular _ _ t _ _ _ => t
  | .definedCommon _ _ _ _ t => t
  | .sharedB _ _ t _ _ => t
  | .lazyArchive _ _ _ t => t
  | .lazyObject _ _ t => t

def isTls (b : SymbolBody) : Bool := b.typeOf == STT_TLS

/-- `SymbolBody::getSourceFile`: the file a body is attributed to in
diagnostics.  Modelled from the spec: the accessor lives in a header not
under `src/`; diagnostics "identify offending files by path". -/
def sourceFile : SymbolBody → Option String
  | .uninit _ => none
  | .undefinedB _ _ _ f => f
  | .definedRegular _ _ _ _ _ sec => sec
  | .definedCommon _ _ _ _ _ => none
  | .sharedB f _ _ _ _ => some f
  | .lazyArchive f _ _ _ => some f
  | .lazyObject _ _ _ => none

end SymbolBody

/-- The per-name envelope (`Symbol`): binding, visibility, flags,
version id and the current body slot. -/
structure Symbol where
  Binding : Nat
  Visibility : Nat
  IsUsedInRegularObj : Bool
  ExportDynamic : Bool
  VersionId : Nat
  VersionedName : Bool
  body : SymbolBody
deriving Repr, DecidableEq

def Symbol.isWeak (s : Symbol) : Bool := s.Binding == STB_WEAK

def defaultSymbol : Symbol :=
  { Binding := STB_WEAK, Visibility := STV_DEFAULT, IsUsedInRegularObj := false,
    ExportDynamic := false, VersionId := 0, VersionedName := false,
    body := SymbolBody.uninit "" }

/-- A declared version of the version script (`elf::Version`). -/
structure Version where
  name : String
  globals : List String
deriving Repr, DecidableEq

/-- The configuration fields the engine reads.  `demangleFn` models the
external `demangle` collaborator (its code is not under `src/`; the spec
only says diagnostics carry the demangled name). -/
structure Config where
  versionScriptGlobalByDefault : Bool
  symbolVersions : List Version
  allowMultipleDefinition : Bool
  warnCommon : Bool
  shared : Bool
  exportDynamic : Bool
  demangleFn : String → String

/-- The symbol table: the name index (`Symtab`, an association from
name to index into `SymVector`), the envelope storage, the accepted
file registries, the soname set, and the accumulated diagnostics.
`usedShared` records the shared files whose `IsUsed` flag was set. -/
structure SymbolTable where
  symtabIdx : List (String × Nat)
  symVector : List Symbol
  soNames : List String
  sharedFiles : List SharedFileRec
  objectFiles : List String
  archiveFiles : List String
  lazyObjFiles : List String
  usedShared : List String
  diags : List Diag

def emptyTable : SymbolTable :=
  { symtabIdx := [], symVector := [], soNames := [], sharedFiles := [],
    objectFiles := [], archiveFiles := [], lazyObjFiles := [],
    usedShared := [], diags := [] }

def lookupIdx : List (String × Nat) → String → Option Nat
  | [], _ => none
  | (n, i) :: rest, name => if n = name then some i else lookupIdx rest name

namespace SymbolTable

def lookup (st : SymbolTable) (name : String) : Option Nat :=
  lookupIdx st.symtabIdx name

def getSym (st : SymbolTable) (i : Nat) : Symbol :=
  st.symVector.getD i defaultSymbol

def updateSym (st : SymbolTable) (i : Nat) (f : Symbol → Symbol) : SymbolTable :=
  { st with symVector := st.symVector.set i (f (st.getSym i)) }

def setBody (st : SymbolTable) (i : Nat) (b : SymbolBody) : SymbolTable :=
  st.updateSym i (fun s => { s with body := b })

def addDiag (st : SymbolTable) (d : Diag) : SymbolTable :=
  { st with diags := st.diags ++ [d] }

def addDiags (st : SymbolTable) (ds : List Diag) : SymbolTable :=
  { st with diags := st.diags ++ ds }

/-- `SymbolTable::find`, restricted to the body (the source returns the
body pointer; callers test it for null). -/
def findBody (st : SymbolTable) (name : String) : Option SymbolBody :=
  (st.lookup name).map (fun i => (st.getSym i).body)

/-- The bodies of all envelopes, in storage order. -/
def bodies (st : SymbolTable) : List SymbolBody :=
  st.symVector.map Symbol.body

end SymbolTable

/-- `getMinVisibility`: combining two visibilities (stricter wins,
`STV_DEFAULT` loses to anything). -/
def getMinVisibility (VA VB : Nat) : Nat :=
  if VA = STV_DEFAULT then VB
  else if VB = STV_DEFAULT then VA
  else min VA VB

/-- The characters after the first `'@'` of a name, if any (the
version-tag scan of `getVersionId`). -/
def dropUntilAt : List Char → Option (List Char)
  | [] => none
  | c :: cs => if c = '@' then some cs else dropUntilAt cs

/-- The loop of `getVersionId` over `Config->SymbolVersions`, starting
its counter at `i` (the source starts it at 2). -/
def lookupVersion : List Version → Nat → String → Option Nat
  | [], _, _ => none
  | v :: vs, i, ver => if v.name = ver then some i else lookupVersion vs (i + 1) ver

/-- `getVersionId`: parse the version tag of a name and return the
version id, together with the diagnostics emitted. -/
def getVersionId (cfg : Config) (name : String) : Nat × List Diag :=
  match dropUntilAt name.toList with
  | none =>
      (if cfg.versionScriptGlobalByDefault then VER_NDX_GLOBAL else VER_NDX_LOCAL, [])
  | some rest =>
      let dflt := rest.head? == some '@'
      let verChars := if dflt then rest.tail else rest
      let version := String.mk verChars
      match lookupVersion cfg.symbolVersions 2 version with
      | some i => ((if dflt then i else i ||| VERSYM_HIDDEN), [])
      | none => (0, [Diag.errorD ("symbol " ++ name ++ " has undefined version " ++ version)])

/-- `getFilename` on a possibly absent file (a null `InputFile*` is
attributed to the linker itself; modelled from the spec, the helper is
not under `src/`). -/
def getFilenameOpt : Option String → String
  | some f => f
  | none => "(internal)"

/-- `SymbolTable::conflictMsg`: "SYM in FILE1 and FILE2", with the
symbol name demangled. -/
def conflictMsg (cfg : Config) (existing : SymbolBody) (newFile : Option String) : String :=
  cfg.demangleFn existing.nameOf ++ " in " ++ getFilenameOpt existing.sourceFile
    ++ " and " ++ getFilenameOpt newFile

/-- The initialization of a freshly allocated `Symbol` in the
one-argument `insert`: weak binding, default visibility, cleared flags,
version id parsed from the name. -/
def freshSym (cfg : Config) (name : String) : Symbol :=
  { Binding := STB_WEAK, Visibility := STV_DEFAULT,
    IsUsedInRegularObj := false, ExportDynamic := false,
    VersionId := (getVersionId cfg name).1,
    VersionedName := ((getVersionId cfg name).1 != VER_NDX_LOCAL)
      && ((getVersionId cfg name).1 != VER_NDX_GLOBAL),
    body := SymbolBody.uninit name }

/-- The one-argument `SymbolTable::insert`: find an existing envelope or
create and append a fresh one.  Returns the envelope's index and whether
it was newly inserted. -/
def insertName (cfg : Config) (st : SymbolTable) (name : String) :
    SymbolTable × Nat × Bool :=
  match st.lookup name with
  | some i => (st, i, false)
  | none =>
      ({ st with symtabIdx := st.symtabIdx ++ [(name, st.symVector.length)],
                 symVector := st.symVector ++ [freshSym cfg name],
                 diags := st.diags ++ (getVersionId cfg name).2 },
       st.symVector.length, true)

/-- The TLS-mismatch test of the five-argument `insert`. -/
def tlsMismatch (b : SymbolBody) (styp : Nat) : Bool :=
  (b.typeOf != UnknownType) && ((styp == STT_TLS) != b.isTls)

/-- The five-argument `SymbolTable::insert`: look up or create, then
merge visibility, the `ExportDynamic` and `IsUsedInRegularObj` flags,
and diagnose a TLS attribute mismatch. -/
def insertFull (cfg : Config) (st : SymbolTable) (name : String)
    (styp visibility : Nat) (canOmitFromDynSym isUsedInRegularObj : Bool)
    (file : Option String) : SymbolTable × Nat × Bool :=
  let p := insertName cfg st name
  let i := p.2.1
  let wasInserted := p.2.2
  let st := p.1.updateSym i
      (fun s => { s with Visibility := getMinVisibility s.Visibility visibility })
  let st := if !canOmitFromDynSym && (cfg.shared || cfg.exportDynamic)
            then st.updateSym i (fun s => { s with ExportDynamic := true }) else st
  let st := if isUsedInRegularObj
            then st.updateSym i (fun s => { s with IsUsedInRegularObj := true }) else st
  let st := if !wasInserted && tlsMismatch (st.getSym i).body styp
            then st.addDiag (Diag.errorD
              ("TLS attribute mismatch for symbol: " ++ conflictMsg cfg (st.getSym i).body file))
            else st
  (st, i, wasInserted)

/-- `compareDefined`: precedence verdict for a new defined symbol with
the given binding against the envelope's current record. -/
def compareDefined (s : Symbol) (wasInserted : Bool) (binding : Nat) : Int :=
  if wasInserted then 1
  else if s.body.isLazy || s.body.isUndefined || s.body.isShared then 1
  else if binding = STB_WEAK then -1
  else if s.isWeak then 1
  else 0

/-- `compareDefinedNonCommon`: like `compareDefined` but a common
current record is overridden (verdict 1) instead of conflicting; on a
winning verdict the envelope's binding is updated.  Returns the verdict,
the updated envelope, and the diagnostics emitted. -/
def compareDefinedNonCommon (cfg : Config) (s : Symbol) (wasInserted : Bool)
    (binding : Nat) : Int × Symbol × List Diag :=
  let cmp := compareDefined s wasInserted binding
  if cmp ≠ 0 then
    (cmp, if cmp > 0 then { s with Binding := binding } else s, [])
  else if s.body.isCommon then
    (1, s, if cfg.warnCommon then [Diag.warningD ("common " ++ s.body.nameOf ++ " is overridden")] else [])
  else (0, s, [])

/-- `SymbolTable::reportDuplicate`: the duplicate-symbol diagnostic, a
warning under allow-multiple-definition and an error otherwise. -/
def reportDuplicate (cfg : Config) (st : SymbolTable) (existing : SymbolBody)
    (newFile : Option String) : SymbolTable :=
  let msg := "duplicate symbol: " ++ conflictMsg cfg existing newFile
  if cfg.allowMultipleDefinition then st.addDiag (Diag.warningD msg)
  else st.addDiag (Diag.errorD msg)

/-- `SymbolTable::addRegular` (the `Elf_Sym` overload): insert a regular
defined symbol.  `section` is the owning file of the symbol's section
(`none` for a null section). -/
def addRegular (cfg : Config) (st : SymbolTable) (name : String)
    (binding styp stOther value : Nat) (sec : Option String) : SymbolTable :=
  let p := insertFull cfg st name styp (stOther % 4) false true sec
  let st := p.1
  let i := p.2.1
  let q := compareDefinedNonCommon cfg (st.getSym i) p.2.2 binding
  let st := (st.updateSym i (fun _ => q.2.1)).addDiags q.2.2
  if q.1 > 0 then st.setBody i (SymbolBody.definedRegular name binding styp stOther value sec)
  else if q.1 = 0 then reportDuplicate cfg st (st.getSym i).body sec
  else st

/-- `SymbolTable::addCommon`: insert a common symbol; two commons of the
same strength merge by maximum size and maximum alignment. -/
def addCommon (cfg : Config) (st : SymbolTable) (name : String)
    (size alignment binding stOther styp : Nat) (file : Option String) : SymbolTable :=
  let p := insertFull cfg st name styp (stOther % 4) false true file
  let st := p.1
  let i := p.2.1
  let cmp := compareDefined (st.getSym i) p.2.2 binding
  if cmp > 0 then
    (st.updateSym i (fun s => { s with Binding := binding })).setBody i
      (SymbolBody.definedCommon name size alignment stOther styp)
  else if cmp = 0 then
    match (st.getSym i).body with
    | SymbolBody.definedCommon n sz al so ty =>
        let st := if cfg.warnCommon
                  then st.addDiag (Diag.warningD ("multiple common of " ++ n)) else st
        st.setBody i (SymbolBody.definedCommon n (max sz size) (max al alignment) so ty)
    | b =>
        if cfg.warnCommon
        then st.addDiag (Diag.warningD ("common " ++ b.nameOf ++ " is overridden"))
        else st
  else st

/-- `SymbolTable::addShared`: a symbol contributed by a shared library.
Visibility is passed as `STV_DEFAULT` so the envelope's visibility is
unchanged; the record only replaces an absent or undefined one. -/
def addShared (cfg : Config) (st : SymbolTable) (fileName : String)
    (name : String) (sym : SharedSymRec) : SymbolTable :=
  let p := insertFull cfg st name sym.styp STV_DEFAULT true false (some fileName)
  let st := p.1
  let i := p.2.1
  let st := if sym.visibility = STV_DEFAULT
            then st.updateSym i (fun s => { s with ExportDynamic := true }) else st
  if p.2.2 || (st.getSym i).body.isUndefined then
    let st := st.setBody i (SymbolBody.sharedB fileName name sym.styp sym.visibility sym.verdef)
    if !(st.getSym i).isWeak then { st with usedShared := st.usedShared ++ [fileName] }
    else st
  else st

/-- Set the `IsUsed` flag of the shared file owning a shared body. -/
def markSharedUsed (st : SymbolTable) (b : SymbolBody) : SymbolTable :=
  match b with
  | SymbolBody.sharedB f _ _ _ _ => { st with usedShared := st.usedShared ++ [f] }
  | _ => st

/-- `Lazy::getFile`.  Modelled from the spec: the accessor is not under
`src/`; from *LazyArchive* it yields the archive member containing the
symbol, from *LazyObject* the buffered object, and an empty buffer
yields nothing (the same pattern `addLazyArchive` spells out inline). -/
def lazyGetFile : SymbolBody → Option ObjFile
  | SymbolBody.lazyArchive _ _ member _ => member
  | SymbolBody.lazyObject _ content _ => content
  | _ => none

/-- Copy the incoming type into a lazy body (`L->Type = Type`). -/
def SymbolBody.withLazyType : SymbolBody → Nat → SymbolBody
  | SymbolBody.lazyArchive f n m _, t => SymbolBody.lazyArchive f n m t
  | SymbolBody.lazyObject n c _, t => SymbolBody.lazyObject n c t
  | b, _ => b

/-- The `Binding != STB_WEAK` block of `addUndefined` on an existing
envelope: a non-weak reference strengthens the binding of a shared or
lazy record and marks a shared record's file as used. -/
def undefStrengthen (st : SymbolTable) (i : Nat) (binding : Nat) : SymbolTable :=
  if binding ≠ STB_WEAK then
    let st := if (st.getSym i).body.isShared || (st.getSym i).body.isLazy
              then st.updateSym i (fun s => { s with Binding := binding }) else st
    markSharedUsed st (st.getSym i).body
  else st

/-- The `dyn_cast<Lazy>` block of `addUndefined`: a weak envelope keeps
the lazy record and copies the incoming type; a non-weak one requests
the lazy file. -/
def undefLazyStep (st : SymbolTable) (i : Nat) (styp : Nat) :
    SymbolTable × Option ObjFile :=
  if (st.getSym i).body.isLazy then
    if (st.getSym i).isWeak then
      (st.setBody i ((st.getSym i).body.withLazyType styp), none)
    else (st, lazyGetFile (st.getSym i).body)
  else (st, none)

/-- `SymbolTable::addUndefined`, without the nested `addFile` call: the
second component is the file the lazy pull-in driver must fetch, if
any. -/
def addUndefinedCore (cfg : Config) (st : SymbolTable) (name : String)
    (binding stOther styp : Nat) (canOmitFromDynSym : Bool)
    (file : Option String) (fileIsBitcode : Bool) : SymbolTable × Option ObjFile :=
  let p := insertFull cfg st name styp (stOther % 4) canOmitFromDynSym
      (file.isNone || !fileIsBitcode) file
  let st := p.1
  let i := p.2.1
  if p.2.2 then
    ((st.updateSym i (fun s => { s with Binding := binding })).setBody i
       (SymbolBody.undefinedB name stOther styp file), none)
  else
    undefLazyStep (undefStrengthen st i binding) i styp

/-- `SymbolTable::addLazyArchive`, without the nested `addFile`: the
second component is the member to fetch, if any. -/
def addLazyArchiveCore (cfg : Config) (st : SymbolTable) (archName : String)
    (sym : ArchiveLazySym) : SymbolTable × Option ObjFile :=
  let p := insertName cfg st sym.sname
  let st := p.1
  let i := p.2.1
  if p.2.2 then
    (st.setBody i (SymbolBody.lazyArchive archName sym.sname sym.member UnknownType), none)
  else if !(st.getSym i).body.isUndefined then (st, none)
  else if (st.getSym i).isWeak then
    (st.setBody i (SymbolBody.lazyArchive archName sym.sname sym.member
      (st.getSym i).body.typeOf), none)
  else (st, sym.member)

/-- `SymbolTable::addLazyObject`, without the nested `addFile`. -/
def addLazyObjectCore (cfg : Config) (st : SymbolTable) (name : String)
    (obj : LazyObjFileRec) : SymbolTable × Option ObjFile :=
  let p := insertName cfg st name
  let st := p.1
  let i := p.2.1
  if p.2.2 then
    (st.setBody i (SymbolBody.lazyObject name obj.content UnknownType), none)
  else if !(st.getSym i).body.isUndefined then (st, none)
  else if (st.getSym i).isWeak then
    (st.setBody i (SymbolBody.lazyObject name obj.content (st.getSym i).body.typeOf), none)
  else (st, obj.content)

/-- `SharedFile::parseRest`, modelled from the spec: the parser yields
the file's symbol records to the engine, one `addShared` call each. -/
def parseSharedSyms (cfg : Config) (fname : String) :
    SymbolTable → List SharedSymRec → SymbolTable
  | st, [] => st
  | st, r :: rs => parseSharedSyms cfg fname (addShared cfg st fname r.sname r) rs

/-- The `.so` branch of `SymbolTable::addFile`: DSOs are uniquified by
soname; a repeated soname is dropped before `parseRest` runs. -/
def addSharedFile (cfg : Config) (st : SymbolTable) (f : SharedFileRec) : SymbolTable :=
  if st.soNames.contains f.soname then st
  else
    let st := { st with soNames := st.soNames ++ [f.soname],
                        sharedFiles := st.sharedFiles ++ [f] }
    parseSharedSyms cfg f.fname st f.syms

/-- The object-file branch of `SymbolTable::addFile` together with
`ObjectFile::parse` (the latter modelled from the spec: the parser
yields each symbol record to the matching engine entry point).  `fuel`
bounds the nesting depth of lazy pull-ins; a pull-in that would exceed
it is dropped.  A member fetched by `addUndefined` re-enters here
(`createObjectFile` of the member buffer) before the remaining records
of the current file are processed, as in the source's nested call. -/
def parseObj (fuel : Nat) (cfg : Config) (st : SymbolTable) (fn : String) :
    List SymRecord → SymbolTable
  | [] => st
  | r :: rs =>
      let st2 := match r with
        | SymRecord.undef n b so ty =>
            let p := addUndefinedCore cfg st n b so ty false (some fn) false
            (match p.2, fuel with
             | some o, fuel' + 1 =>
                 parseObj fuel' cfg
                   { p.1 with objectFiles := p.1.objectFiles ++ [o.oname] } o.oname o.syms
             | _, _ => p.1)
        | SymRecord.regular n b ty so v sec => addRegular cfg st n b ty so v sec
        | SymRecord.common n sz al b so ty => addCommon cfg st n sz al b so ty (some fn)
      parseObj fuel cfg st2 fn rs
  termination_by rs => (fuel, rs.length)

/-- Admit a fetched or given object file: register it and parse its
symbol records. -/
def fetchObj (fuel : Nat) (cfg : Config) (st : SymbolTable) (o : ObjFile) : SymbolTable :=
  parseObj fuel cfg { st with objectFiles := st.objectFiles ++ [o.oname] } o.oname o.syms

/-- The archive branch of `addFile` with `ArchiveFile::parse` (modelled
from the spec: each entry of the archive's symbol index is handed to
`addLazyArchive`); a member fetch re-enters resolution at once. -/
def parseArchive (fuel : Nat) (cfg : Config) (st : SymbolTable) (an : String) :
    List ArchiveLazySym → SymbolTable
  | [] => st
  | s :: ss =>
      let p := addLazyArchiveCore cfg st an s
      let st2 := match p.2, fuel with
        | some o, fuel' + 1 => fetchObj fuel' cfg p.1 o
        | _, _ => p.1
      parseArchive fuel cfg st2 an ss

/-- The lazy-object branch of `addFile` with `LazyObjectFile::parse`
(modelled from the spec: each provided symbol name is handed to
`addLazyObject`). -/
def parseLazyObj (fuel : Nat) (cfg : Config) (st : SymbolTable) (f : LazyObjFileRec) :
    List String → SymbolTable
  | [] => st
  | n :: ns =>
      let p := addLazyObjectCore cfg st n f
      let st2 := match p.2, fuel with
        | some o, fuel' + 1 => fetchObj fuel' cfg p.1 o
        | _, _ => p.1
      parseLazyObj fuel cfg st2 f ns

/-- `SymbolTable::addFile`: admit an input file and hand its symbol
records to the engine.  (The bitcode branch and the architecture
compatibility check are outside the modelled scope; inputs are taken to
be compatible.) -/
def addFile (fuel : Nat) (cfg : Config) (st : SymbolTable) : InputFile → SymbolTable
  | InputFile.object o => fetchObj fuel cfg st o
  | InputFile.archive a =>
      parseArchive fuel cfg { st with archiveFiles := st.archiveFiles ++ [a.fname] }
        a.fname a.syms
  | InputFile.lazyObj l =>
      parseLazyObj fuel cfg { st with lazyObjFiles := st.lazyObjFiles ++ [l.fname] }
        l l.names
  | InputFile.sharedLib s => addSharedFile cfg st s

/-- `SymbolTable::addUndefined` (the full overload), with the lazy
pull-in executed: a fetched member re-enters resolution via
`addFile`. -/
def addUndefined (fuel : Nat) (cfg : Config) (st : SymbolTable) (name : String)
    (binding stOther styp : Nat) (canOmitFromDynSym : Bool)
    (file : Option String) (fileIsBitcode : Bool) : SymbolTable :=
  let p := addUndefinedCore cfg st name binding stOther styp canOmitFromDynSym file fileIsBitcode
  match p.2 with
  | none => p.1
  | some o => addFile fuel cfg p.1 (InputFile.object o)

/-- The one-argument `SymbolTable::addUndefined(StringRef)` overload:
global binding, default `st_other`, no type, no file. -/
def addUndefined1 (fuel : Nat) (cfg : Config) (st : SymbolTable) (name : String) :
    SymbolTable :=
  addUndefined fuel cfg st name STB_GLOBAL STV_DEFAULT 0 false none false

/-- `SymbolTable::wrap`: if `name` has an envelope, ensure envelopes for
`__real_name` and `__wrap_name` exist, then copy the body slots the way
the two `memcpy` calls do: `__real_name` receives `name`'s body, and
`name` receives `__wrap_name`'s body. -/
def wrap (fuel : Nat) (cfg : Config) (st : SymbolTable) (name : String) : SymbolTable :=
  match st.lookup name with
  | none => st
  | some i =>
      let st1 := addUndefined1 fuel cfg st ("__real_" ++ name)
      let st2 := addUndefined1 fuel cfg st1 ("__wrap_" ++ name)
      match st2.lookup ("__real_" ++ name), st2.lookup ("__wrap_" ++ name) with
      | some ri, some wi =>
          let symBody := (st2.getSym i).body
          let wrapBody := (st2.getSym wi).body
          (st2.setBody ri symBody).setBody i wrapBody
      | _, _ => st2

/-- The projections of the state an `insert` leaves untouched on an
existing envelope: name index, bodies, bindings, registries. -/
def FrameEq (st st' : SymbolTable) : Prop :=
  st'.symtabIdx = st.symtabIdx ∧ st'.bodies = st.bodies ∧
  (∀ j, (st'.getSym j).Binding = (st.getSym j).Binding) ∧
  st'.symVector.length = st.symVector.length ∧
  st'.soNames = st.soNames ∧ st'.sharedFiles = st.sharedFiles ∧
  st'.usedShared = st.usedShared

/-- The symbol a fresh five-argument `insert` leaves in the table. -/
def freshFullSym (cfg : Config) (name : String) (vis : Nat) (co used : Bool) : Symbol :=
  { Binding := STB_WEAK, Visibility := vis,
    IsUsedInRegularObj := used,
    ExportDynamic := !co && (cfg.shared || cfg.exportDynamic),
    VersionId := (getVersionId cfg name).1,
    VersionedName := ((getVersionId cfg name).1 != VER_NDX_LOCAL)
      && ((getVersionId cfg name).1 != VER_NDX_GLOBAL),
    body := SymbolBody.uninit name }

/-- A concrete configuration for witnesses: no version script, no
allow-multiple-definition, no warn-common, static non-exporting link,
identity demangler. -/
def cfg0 : Config :=
  { versionScriptGlobalByDefault := false, symbolVersions := [],
    allowMultipleDefinition := false, warnCommon := false,
    shared := false, exportDynamic := false, demangleFn := fun s => s }

/-- The invariant C8 maintains: retained shared files have pairwise
distinct sonames, and every retained soname is registered in the
soname set. -/
def sonameInv (st : SymbolTable) : Prop :=
  (st.sharedFiles.map SharedFileRec.soname).Nodup ∧
  ∀ f ∈ st.sharedFiles, f.soname ∈ st.soNames

/-- The table after a first strong definition of `bar` from `F1`. -/
def st1dup : SymbolTable := addRegular cfg0 emptyTable "bar" 1 0 0 0 (some "F1")

/-- The table after a first strong (global) common `c` of size 4,
alignment 4. -/
def st4a : SymbolTable := addCommon cfg0 emptyTable "c" 4 4 1 0 0 (some "F1")

/-- A table holding one shared symbol `s` from file `libz`. -/
def st6 : SymbolTable :=
  addShared cfg0 emptyTable "libz" "s"
    { sname := "s", styp := 0, visibility := 0, verdef := none }

/-- A configuration declaring a single version `V1`. -/
def cfg5 : Config := { cfg0 with symbolVersions := [{ name := "V1", globals := [] }] }

/-- An archive entry for `qux` whose member buffer is empty. -/
def st3a : SymbolTable :=
  (addLazyArchiveCore cfg0 emptyTable "A" { sname := "qux", member := none }).1

/-- `st3a` after a strong undefined reference (the fetch is a no-op on
the empty buffer, but the envelope's binding is strengthened). -/
def st3b : SymbolTable := addUndefined 3 cfg0 st3a "qux" STB_GLOBAL 0 0 false none false

/-- `st3b` after a weak undefined reference of type 5. -/
def st3c : SymbolTable := addUndefined 3 cfg0 st3b "qux" STB_WEAK 0 5 false none false

/-- A table defining `malloc` as a strong regular symbol from `F1`. -/
def st9a : SymbolTable := addRegular cfg0 emptyTable "malloc" 1 0 0 0 (some "F1")

/-- `st9a` wrapped once. -/
def st9b : SymbolTable := wrap 5 cfg0 st9a "malloc"

/-- `st9a` wrapped twice. -/
def st9c : SymbolTable := wrap 5 cfg0 st9b "malloc"

/-- The fresh symbol the one-argument `addUndefined` leaves behind. -/
def freshUndefSym (cfg : Config) (n : String) : Symbol :=
  { freshFullSym cfg n 0 false true with
      Binding := STB_GLOBAL,
      body := SymbolBody.undefinedB n 0 0 none }

/-! ### List and table bookkeeping lemmas -/

theorem getD_append_lt {α : Type} :
    ∀ (l l' : List α) (i : Nat) (d : α), i < l.length → (l ++ l').getD i d = l.getD i d
  | [], _, i, _, h => absurd h (by simp)
  | _ :: _, _, 0, _, _ => rfl
  | _ :: l, l', i + 1, d, h => by
      simpa using getD_append_lt l l' i d (Nat.lt_of_succ_lt_succ h)

theorem getD_append_len {α : Type} :
    ∀ (l : List α) (x d : α), (l ++ [x]).getD l.length d = x
  | [], _, _ => rfl
  | _ :: l, x, d => by simpa using getD_append_len l x d

theorem getD_set_self {α : Type} :
    ∀ (l : List α) (i : Nat) (x d : α), i < l.length → (l.set i x).getD i d = x
  | [], i, _, _, h => absurd h (by simp)
  | _ :: _, 0, _, _, _ => rfl
  | _ :: l, i + 1, x, d, h => by
      simpa using getD_set_self l i x d (Nat.lt_of_succ_lt_succ h)

theorem getD_set_ne {α : Type} :
    ∀ (l : List α) (i j : Nat) (x d : α), i ≠ j → (l.set i x).getD j d = l.getD j d
  | [], _, _, _, _, _ => by simp
  | _ :: _, 0, 0, _, _, h => absurd rfl h
  | _ :: _, 0, _ + 1, _, _, _ => by simp
  | _ :: _, _ + 1, 0, _, _, _ => by simp
  | _ :: l, i + 1, j + 1, x, d, h => by
      simpa using getD_set_ne l i j x d (fun e => h (by omega))

theorem set_getD_self {α : Type} :
    ∀ (l : List α) (i : Nat) (d : α), l.set i (l.getD i d) = l
  | [], _, _ => rfl
  | _ :: _, 0, _ => rfl
  | a :: l, i + 1, d => by simpa using set_getD_self l i d

theorem set_append_len {α : Type} :
    ∀ (l : List α) (x y : α), (l ++ [x]).set l.length y = l ++ [y]
  | [], _, _ => rfl
  | a :: l, x, y => by simpa using set_append_len l x y

theorem getD_map {α β : Type} (f : α → β) :
    ∀ (l : List α) (i : Nat) (d : α), (l.map f).getD i (f d) = f (l.getD i d)
  | [], _, _ => rfl
  | _ :: _, 0, _ => rfl
  | _ :: l, i + 1, d => by simpa using getD_map f l i d

theorem lookupIdx_append_of_some {L : List (String × Nat)} {m : String} {k : Nat}
    (h : lookupIdx L m = some k) (L' : List (String × Nat)) :
    lookupIdx (L ++ L') m = some k := by
  induction L with
  | nil => simp [lookupIdx] at h
  | cons p L ih =>
      by_cases hp : p.1 = m
      · simpa [lookupIdx, hp] using by simpa [lookupIdx, hp] using h
      · simp only [lookupIdx, List.cons_append, hp, if_neg hp] at h ⊢
        exact ih h

theorem lookupIdx_append_of_none {L : List (String × Nat)} {m : String}
    (h : lookupIdx L m = none) (L' : List (String × Nat)) :
    lookupIdx (L ++ L') m = lookupIdx L' m := by
  induction L with
  | nil => simp [lookupIdx]
  | cons p L ih =>
      by_cases hp : p.1 = m
      · simp [lookupIdx, hp] at h
      · simp only [lookupIdx, List.cons_append, if_neg hp] at h ⊢
        exact ih h

theorem lookupIdx_single (n m : String) (k : Nat) :
    lookupIdx [(n, k)] m = if n = m then some k else none := rfl

theorem lookup_updateSym (st : SymbolTable) (i : Nat) (f : Symbol → Symbol) (m : String) :
    (st.updateSym i f).lookup m = st.lookup m := rfl

theorem getSym_updateSym_self (st : SymbolTable) (i : Nat) (f : Symbol → Symbol)
    (h : i < st.symVector.length) :
    (st.updateSym i f).getSym i = f (st.getSym i) := by
  simp only [SymbolTable.updateSym, SymbolTable.getSym]
  exact getD_set_self _ _ _ _ h

theorem getSym_updateSym_ne (st : SymbolTable) (i j : Nat) (f : Symbol → Symbol)
    (h : i ≠ j) : (st.updateSym i f).getSym j = st.getSym j := by
  simp only [SymbolTable.updateSym, SymbolTable.getSym]
  exact getD_set_ne _ _ _ _ _ h

theorem length_updateSym (st : SymbolTable) (i : Nat) (f : Symbol → Symbol) :
    (st.updateSym i f).symVector.length = st.symVector.length := by
  simp [SymbolTable.updateSym]

theorem bodies_getD (st : SymbolTable) (i : Nat) :
    st.bodies.getD i (defaultSymbol.body) = (st.getSym i).body := by
  simpa [SymbolTable.bodies, SymbolTable.getSym] using
    getD_map Symbol.body st.symVector i defaultSymbol

theorem bodies_updateSym (st : SymbolTable) (i : Nat) (f : Symbol → Symbol)
    (hb : ∀ s, (f s).body = s.body) : (st.updateSym i f).bodies = st.bodies := by
  simp only [SymbolTable.bodies, SymbolTable.updateSym, List.map_set, hb]
  have := bodies_getD st i
  simp only [SymbolTable.bodies] at this
  rw [show (st.getSym i).body = (st.symVector.map Symbol.body).getD i defaultSymbol.body
        from this.symm]
  exact set_getD_self _ _ _

theorem getSymBody_of_bodies_eq {st st' : SymbolTable}
    (h : st'.bodies = st.bodies) (j : Nat) :
    (st'.getSym j).body = (st.getSym j).body := by
  rw [← bodies_getD, ← bodies_getD, h]

/-- Frame facts for a body- and binding-preserving `updateSym`. -/
theorem frame_updateSym (st : SymbolTable) (i : Nat) (f : Symbol → Symbol)
    (hb : ∀ s, (f s).body = s.body) (hB : ∀ s, (f s).Binding = s.Binding) :
    (st.updateSym i f).symtabIdx = st.symtabIdx ∧
    (st.updateSym i f).bodies = st.bodies ∧
    (∀ j, ((st.updateSym i f).getSym j).Binding = (st.getSym j).Binding) ∧
    (st.updateSym i f).symVector.length = st.symVector.length ∧
    (st.updateSym i f).diags = st.diags ∧
    (st.updateSym i f).soNames = st.soNames ∧
    (st.updateSym i f).sharedFiles = st.sharedFiles ∧
    (st.updateSym i f).usedShared = st.usedShared := by
  refine ⟨rfl, bodies_updateSym st i f hb, ?_, length_updateSym st i f, rfl, rfl, rfl, rfl⟩
  intro j
  by_cases hij : i = j
  · subst hij
    by_cases hl : i < st.symVector.length
    · rw [getSym_updateSym_self st i f hl, hB]
    · have h0 : st.symVector.set i (f (st.getSym i)) = st.symVector :=
        List.set_eq_of_length_le (Nat.le_of_not_lt hl)
      have h2 : st.updateSym i f = st := by
        simp [SymbolTable.updateSym, h0]
      rw [h2]
  · rw [getSym_updateSym_ne st i j f hij]

theorem insertName_existing (cfg : Config) (st : SymbolTable) (name : String) (i : Nat)
    (h : st.lookup name = some i) : insertName cfg st name = (st, i, false) := by
  simp [insertName, h]

theorem insertName_fresh (cfg : Config) (st : SymbolTable) (name : String)
    (h : st.lookup name = none) :
    insertName cfg st name =
      ({ st with symtabIdx := st.symtabIdx ++ [(name, st.symVector.length)],
                 symVector := st.symVector ++ [freshSym cfg name],
                 diags := st.diags ++ (getVersionId cfg name).2 },
       st.symVector.length, true) := by
  simp [insertName, h]

theorem frameEq_refl (st : SymbolTable) : FrameEq st st :=
  ⟨rfl, rfl, fun _ => rfl, rfl, rfl, rfl, rfl⟩

theorem frameEq_trans {a b c : SymbolTable} (h1 : FrameEq a b) (h2 : FrameEq b c) :
    FrameEq a c := by
  obtain ⟨x1, x2, x3, x4, x5, x6, x7⟩ := h1
  obtain ⟨y1, y2, y3, y4, y5, y6, y7⟩ := h2
  exact ⟨y1.trans x1, y2.trans x2, fun j => (y3 j).trans (x3 j), y4.trans x4,
    y5.trans x5, y6.trans x6, y7.trans x7⟩

theorem frameEq_updateSym (st : SymbolTable) (i : Nat) (f : Symbol → Symbol)
    (hb : ∀ s, (f s).body = s.body) (hB : ∀ s, (f s).Binding = s.Binding) :
    FrameEq st (st.updateSym i f) := by
  obtain ⟨x1, x2, x3, x4, _, x6, x7, x8⟩ := frame_updateSym st i f hb hB
  exact ⟨x1, x2, x3, x4, x6, x7, x8⟩

theorem frameEq_addDiag (st : SymbolTable) (d : Diag) : FrameEq st (st.addDiag d) :=
  ⟨rfl, rfl, fun _ => rfl, rfl, rfl, rfl, rfl⟩

theorem insertFull_existing (cfg : Config) (st : SymbolTable) (name : String)
    (styp vis : Nat) (co used : Bool) (file : Option String) (i : Nat)
    (h : st.lookup name = some i) :
    ∃ st', insertFull cfg st name styp vis co used file = (st', i, false) ∧
      FrameEq st st' ∧
      (tlsMismatch (st.getSym i).body styp = false → st'.diags = st.diags) := by
  simp only [insertFull, insertName_existing cfg st name i h]
  refine ⟨_, rfl, ?_, ?_⟩
  all_goals {
    have f1 : FrameEq st (st.updateSym i
        (fun s => { s with Visibility := getMinVisibility s.Visibility vis })) :=
      frameEq_updateSym _ _ _ (fun _ => rfl) (fun _ => rfl)
    set st1 := st.updateSym i
        (fun s => { s with Visibility := getMinVisibility s.Visibility vis }) with hst1
    have f2 : FrameEq st1 (if (!co && (cfg.shared || cfg.exportDynamic)) = true
          then st1.updateSym i (fun s => { s with ExportDynamic := true }) else st1) := by
      by_cases hc : (!co && (cfg.shared || cfg.exportDynamic)) = true
      · simpa [hc] using frameEq_updateSym st1 i
            (fun s => { s with ExportDynamic := true }) (fun _ => rfl) (fun _ => rfl)
      · simpa [hc] using frameEq_refl st1
    set st2 := if (!co && (cfg.shared || cfg.exportDynamic)) = true
          then st1.updateSym i (fun s => { s with ExportDynamic := true }) else st1 with hst2
    have f3 : FrameEq st2 (if used = true
          then st2.updateSym i (fun s => { s with IsUsedInRegularObj := true }) else st2) := by
      by_cases hu : used = true
      · simpa [hu] using frameEq_updateSym st2 i
            (fun s => { s with IsUsedInRegularObj := true }) (fun _ => rfl) (fun _ => rfl)
      · simpa [hu] using frameEq_refl st2
    set st3 := if used = true
          then st2.updateSym i (fun s => { s with IsUsedInRegularObj := true }) else st2 with hst3
    have f123 : FrameEq st st3 := frameEq_trans (frameEq_trans f1 f2) f3
    have hbody3 : (st3.getSym i).body = (st.getSym i).body :=
      getSymBody_of_bodies_eq f123.2.1 i
    have hd1 : st1.diags = st.diags := rfl
    have hd2 : st2.diags = st.diags := by
      rw [hst2]; by_cases hc : (!co && (cfg.shared || cfg.exportDynamic)) = true <;>
        simp [hc, SymbolTable.updateSym, hd1]
    have hd3 : st3.diags = st.diags := by
      rw [hst3]; by_cases hu : used = true <;> simp [hu, SymbolTable.updateSym, hd2]
    first
    | · -- FrameEq goal
        by_cases ht : tlsMismatch (st3.getSym i).body styp
        · simpa [ht] using frameEq_trans f123 (frameEq_addDiag st3 _)
        · simpa [ht] using f123
    | · -- diags goal
        intro htls
        rw [hbody3] at *
        simp [htls, hbody3, hd3]
  }

theorem insertFull_fresh (cfg : Config) (st : SymbolTable) (name : String)
    (styp vis : Nat) (co used : Bool) (file : Option String)
    (h : st.lookup name = none) :
    insertFull cfg st name styp vis co used file =
      ({ st with symtabIdx := st.symtabIdx ++ [(name, st.symVector.length)],
                 symVector := st.symVector ++ [freshFullSym cfg name vis co used],
                 diags := st.diags ++ (getVersionId cfg name).2 },
       st.symVector.length, true) := by
  simp only [insertFull, insertName_fresh cfg st name h]
  simp only [SymbolTable.updateSym, SymbolTable.getSym]
  rw [getD_append_len, set_append_len]
  have hvis : getMinVisibility (freshSym cfg name).Visibility vis = vis := by
    simp [freshSym, getMinVisibility, STV_DEFAULT]
  rw [hvis]
  by_cases hc : (!co && (cfg.shared || cfg.exportDynamic)) = true <;>
    by_cases hu : used = true <;>
      simp only [hc, hu, if_true, if_false, Bool.false_eq_true, ite_true, ite_false] <;>
      first
      | (rw [getD_append_len, set_append_len, getD_append_len, set_append_len]
         simp [freshSym, freshFullSym, hc, hu, Bool.not_eq_true] at * <;> simp_all)
      | (try rw [getD_append_len, set_append_len]) <;>
        simp only [Bool.not_eq_true] at hc hu <;>
        simp [freshSym, freshFullSym, hc, hu]

theorem getD_oob {α : Type} :
    ∀ (l : List α) (j : Nat) (d : α), l.length ≤ j → l.getD j d = d
  | [], _, _, _ => by simp
  | _ :: _, 0, _, h => by simp at h
  | _ :: l, j + 1, d, h => by simpa using getD_oob l j d (Nat.le_of_succ_le_succ h)

/-- A projection untouched by the update function is untouched at every
index. -/
theorem getSym_proj_updateSym {β : Type} (P : Symbol → β) (st : SymbolTable) (i : Nat)
    (f : Symbol → Symbol) (hP : ∀ s, P (f s) = P s) (j : Nat) :
    P ((st.updateSym i f).getSym j) = P (st.getSym j) := by
  by_cases hij : i = j
  · subst hij
    by_cases hl : i < st.symVector.length
    · rw [getSym_updateSym_self st i f hl, hP]
    · have h0 : st.symVector.set i (f (st.getSym i)) = st.symVector :=
        List.set_eq_of_length_le (Nat.le_of_not_lt hl)
      have h2 : st.updateSym i f = st := by simp [SymbolTable.updateSym, h0]
      rw [h2]
  · rw [getSym_updateSym_ne st i j f hij]

theorem getMinVisibility_default_right (v : Nat) :
    getMinVisibility v STV_DEFAULT = v := by
  by_cases hv : v = STV_DEFAULT <;> simp [getMinVisibility, hv]

theorem visibility_insertFull_default (cfg : Config) (st : SymbolTable) (name : String)
    (styp : Nat) (co used : Bool) (file : Option String) (j : Nat) :
    (((insertFull cfg st name styp STV_DEFAULT co used file).1).getSym j).Visibility
      = (st.getSym j).Visibility := by
  cases hl : st.lookup name with
  | some i =>
      simp only [insertFull, insertName_existing cfg st name i hl]
      have h1 : ∀ k, ((st.updateSym i
          (fun s => { s with Visibility := getMinVisibility s.Visibility STV_DEFAULT })).getSym k).Visibility
          = (st.getSym k).Visibility :=
        getSym_proj_updateSym Symbol.Visibility st i _
          (fun s => getMinVisibility_default_right s.Visibility)
      set stA := st.updateSym i
          (fun s => { s with Visibility := getMinVisibility s.Visibility STV_DEFAULT }) with hstA
      have h2 : ∀ k, ((if (!co && (cfg.shared || cfg.exportDynamic)) = true
            then stA.updateSym i (fun s => { s with ExportDynamic := true }) else stA).getSym k).Visibility
          = (stA.getSym k).Visibility := by
        intro k
        by_cases hc : (!co && (cfg.shared || cfg.exportDynamic)) = true
        · simpa [hc] using getSym_proj_updateSym Symbol.Visibility stA i
            (fun s => { s with ExportDynamic := true }) (fun _ => rfl) k
        · simp [hc]
      set stB := if (!co && (cfg.shared || cfg.exportDynamic)) = true
            then stA.updateSym i (fun s => { s with ExportDynamic := true }) else stA with hstB
      have h3 : ∀ k, ((if used = true
            then stB.updateSym i (fun s => { s with IsUsedInRegularObj := true }) else stB).getSym k).Visibility
          = (stB.getSym k).Visibility := by
        intro k
        by_cases hu : used = true
        · simpa [hu] using getSym_proj_updateSym Symbol.Visibility stB i
            (fun s => { s with IsUsedInRegularObj := true }) (fun _ => rfl) k
        · simp [hu]
      set stC := if used = true
            then stB.updateSym i (fun s => { s with IsUsedInRegularObj := true }) else stB with hstC
      have h4 : ∀ (c : Bool) (d : Diag) (k : Nat),
          ((if (!false && c) = true then stC.addDiag d else stC).getSym k).Visibility
          = (stC.getSym k).Visibility := by
        intro c d k
        by_cases hc : c = true <;> simp [hc, SymbolTable.addDiag, SymbolTable.getSym]
      exact (h4 _ _ j).trans ((h3 j).trans ((h2 j).trans (h1 j)))
  | none =>
      rw [insertFull_fresh cfg st name styp STV_DEFAULT co used file hl]
      rcases Nat.lt_trichotomy j st.symVector.length with hj | hj | hj
      · simp only [SymbolTable.getSym]
        rw [getD_append_lt _ _ _ _ hj]
      · subst hj
        simp only [SymbolTable.getSym]
        rw [getD_append_len, getD_oob _ _ _ (Nat.le_refl _)]
        simp [freshFullSym, defaultSymbol]
      · simp only [SymbolTable.getSym]
        rw [getD_oob _ _ _ (by simpa using hj),
            getD_oob _ _ _ (Nat.le_of_lt hj)]

/-- C7: a symbol contributed by a shared library never changes the
effective visibility of any envelope: after any `addShared` call, every
envelope's visibility equals its visibility before the call (the engine
merges with `STV_DEFAULT`, which is the identity of the visibility
combination). -/
theorem addShared_visibility_invariant (cfg : Config) (st : SymbolTable)
    (fileName name : String) (sym : SharedSymRec) (j : Nat) :
    ((addShared cfg st fileName name sym).getSym j).Visibility
      = (st.getSym j).Visibility := by
  have h0 := visibility_insertFull_default cfg st name sym.styp true false (some fileName) j
  simp only [addShared]
  set p := insertFull cfg st name sym.styp STV_DEFAULT true false (some fileName) with hp
  have h1 : ∀ k, ((if sym.visibility = STV_DEFAULT
        then p.1.updateSym p.2.1 (fun s => { s with ExportDynamic := true })
        else p.1).getSym k).Visibility = (p.1.getSym k).Visibility := by
    intro k
    by_cases hv : sym.visibility = STV_DEFAULT
    · simpa [hv] using getSym_proj_updateSym Symbol.Visibility p.1 p.2.1
        (fun s => { s with ExportDynamic := true }) (fun _ => rfl) k
    · simp [hv]
  set stA := if sym.visibility = STV_DEFAULT
        then p.1.updateSym p.2.1 (fun s => { s with ExportDynamic := true })
        else p.1 with hstA
  have h2 : ∀ k, ((if (p.2.2 || ((stA.getSym p.2.1).body.isUndefined)) = true
        then (let stB := stA.setBody p.2.1
                (SymbolBody.sharedB fileName name sym.styp sym.visibility sym.verdef)
              if !(stB.getSym p.2.1).isWeak
              then { stB with usedShared := stB.usedShared ++ [fileName] } else stB)
        else stA).getSym k).Visibility = (stA.getSym k).Visibility := by
    intro k
    by_cases hc : (p.2.2 || ((stA.getSym p.2.1).body.isUndefined)) = true
    · simp only [hc, if_true]
      have hv1 : ∀ m, ((stA.setBody p.2.1
            (SymbolBody.sharedB fileName name sym.styp sym.visibility sym.verdef)).getSym m).Visibility
            = (stA.getSym m).Visibility :=
        getSym_proj_updateSym Symbol.Visibility stA p.2.1 _ (fun _ => rfl)
      set stB := stA.setBody p.2.1
            (SymbolBody.sharedB fileName name sym.styp sym.visibility sym.verdef) with hstB
      split <;> exact hv1 k
    · simp [hc]
  exact (h2 j).trans ((h1 j).trans h0)

/-- C10: if NAME is not present in the name index, `--wrap NAME` is a
complete no-op: it introduces no `__real_NAME` or `__wrap_NAME`
envelopes and leaves the symbol table entirely unchanged. -/
theorem wrap_absent_noop (fuel : Nat) (cfg : Config) (st : SymbolTable) (name : String)
    (h : st.lookup name = none) : wrap fuel cfg st name = st := by
  simp [wrap, h]

theorem wrap_absent_noop_witness :
    emptyTable.lookup "foo" = none ∧ wrap 3 cfg0 emptyTable "foo" = emptyTable :=
  ⟨rfl, wrap_absent_noop 3 cfg0 emptyTable "foo" rfl⟩

theorem addShared_files_frame (cfg : Config) (st : SymbolTable)
    (fileName name : String) (sym : SharedSymRec) :
    (addShared cfg st fileName name sym).soNames = st.soNames ∧
    (addShared cfg st fileName name sym).sharedFiles = st.sharedFiles := by
  cases hl : st.lookup name with
  | some i =>
      obtain ⟨st', he, hf, _⟩ :=
        insertFull_existing cfg st name sym.styp STV_DEFAULT true false (some fileName) i hl
      simp only [addShared, he]
      constructor <;>
        (split_ifs <;>
          simp [SymbolTable.setBody, SymbolTable.updateSym,
            hf.2.2.2.2.1, hf.2.2.2.2.2.1])
  | none =>
      simp only [addShared, insertFull_fresh cfg st name sym.styp STV_DEFAULT true false
        (some fileName) hl]
      constructor <;>
        (split_ifs <;> simp [SymbolTable.setBody, SymbolTable.updateSym])

theorem parseSharedSyms_files_frame (cfg : Config) (fname : String) :
    ∀ (rs : List SharedSymRec) (st : SymbolTable),
    (parseSharedSyms cfg fname st rs).soNames = st.soNames ∧
    (parseSharedSyms cfg fname st rs).sharedFiles = st.sharedFiles
  | [], st => ⟨rfl, rfl⟩
  | r :: rs, st => by
      have h1 := addShared_files_frame cfg st fname r.sname r
      have h2 := parseSharedSyms_files_frame cfg fname rs (addShared cfg st fname r.sname r)
      exact ⟨h2.1.trans h1.1, h2.2.trans h1.2⟩

theorem addSharedFile_dup_noop (cfg : Config) (st : SymbolTable) (f : SharedFileRec)
    (h : f.soname ∈ st.soNames) : addSharedFile cfg st f = st := by
  have hc : st.soNames.contains f.soname = true := List.elem_iff.mpr h
  simp [addSharedFile, hc, h]

theorem addSharedFile_inv (cfg : Config) (st : SymbolTable) (f : SharedFileRec)
    (h : sonameInv st) : sonameInv (addSharedFile cfg st f) := by
  by_cases hm : f.soname ∈ st.soNames
  · rw [addSharedFile_dup_noop cfg st f hm]; exact h
  · have hc : st.soNames.contains f.soname = false := by
      rw [← Bool.not_eq_true]
      intro hcc
      exact hm (List.elem_iff.mp hcc)
    simp only [addSharedFile, hc, Bool.false_eq_true, if_false]
    obtain ⟨hfr1, hfr2⟩ := parseSharedSyms_files_frame cfg f.fname f.syms
      { st with soNames := st.soNames ++ [f.soname], sharedFiles := st.sharedFiles ++ [f] }
    constructor
    · rw [hfr2]
      simp only [List.map_append, List.map_cons, List.map_nil]
      rw [List.nodup_append]
      refine ⟨h.1, List.nodup_singleton _, ?_⟩
      intro x hx hx'
      simp only [List.mem_singleton] at hx'
      subst hx'
      obtain ⟨g, hg, hgs⟩ := List.mem_map.mp hx
      exact hm (hgs ▸ h.2 g hg)
    · intro g hg
      rw [hfr2] at hg
      rw [hfr1]
      simp only [List.mem_append] at hg ⊢
      cases hg with
      | inl hg => exact Or.inl (h.2 g hg)
      | inr hg =>
          simp only [List.mem_singleton] at hg
          subst hg
          exact Or.inr (by simp)

/-- C8: shared files are uniquified by soname.  Along any sequence of
admitted shared inputs the retained shared files have pairwise distinct
sonames, and a shared input whose soname was already accepted is
silently dropped before its symbols are parsed: the call leaves the
whole table (symbol index included) unchanged. -/
theorem sharedFile_soname_uniquification (cfg : Config) (st : SymbolTable)
    (fs : List SharedFileRec) (h : sonameInv st) :
    sonameInv (fs.foldl (fun s f => addSharedFile cfg s f) st) ∧
    (∀ f : SharedFileRec, f.soname ∈ st.soNames → addSharedFile cfg st f = st) := by
  constructor
  · induction fs generalizing st with
    | nil => exact h
    | cons f fs ih => exact ih (addSharedFile cfg st f) (addSharedFile_inv cfg st f h)
  · intro f hf
    exact addSharedFile_dup_noop cfg st f hf

theorem sharedFile_soname_uniquification_witness :
    sonameInv emptyTable ∧
    (sonameInv ([ { fname := "a.so", soname := "libz.so.1",
                    syms := [{ sname := "z", styp := 0, visibility := 0, verdef := none }] },
                  { fname := "b.so", soname := "libz.so.1",
                    syms := [{ sname := "w", styp := 0, visibility := 0, verdef := none }] }
                ].foldl (fun s f => addSharedFile cfg0 s f) emptyTable) ∧
     (∀ f : SharedFileRec, f.soname ∈ emptyTable.soNames →
        addSharedFile cfg0 emptyTable f = emptyTable)) := by
  have h0 : sonameInv emptyTable := by
    constructor
    · simp [emptyTable]
    · intro f hf
      simp [emptyTable] at hf
  exact ⟨h0, sharedFile_soname_uniquification cfg0 emptyTable _ h0⟩

/-- C1: inserting a non-common Regular defined symbol whose precedence
verdict against the envelope's current record is 0 (two strong
non-common definitions) emits "duplicate symbol: NAME in FILE1 and
FILE2" with NAME demangled — an error without
allow-multiple-definition, a warning with it — and in both cases the
envelope keeps the first definition's payload unchanged. -/
theorem addRegular_duplicate (cfg : Config) (st : SymbolTable) (name : String)
    (binding styp stOther value : Nat) (F1 F2 : String) (i : Nat)
    (b0 t0 so0 v0 : Nat)
    (hl : st.lookup name = some i)
    (hbody : (st.getSym i).body = SymbolBody.definedRegular name b0 t0 so0 v0 (some F1))
    (hsb : (st.getSym i).Binding ≠ STB_WEAK)
    (hb : binding ≠ STB_WEAK)
    (htls : tlsMismatch (st.getSym i).body styp = false) :
    (addRegular cfg st name binding styp stOther value (some F2)).findBody name
        = some (SymbolBody.definedRegular name b0 t0 so0 v0 (some F1)) ∧
    (addRegular cfg st name binding styp stOther value (some F2)).diags
        = st.diags ++ [if cfg.allowMultipleDefinition
            then Diag.warningD ("duplicate symbol: " ++ cfg.demangleFn name
                ++ " in " ++ F1 ++ " and " ++ F2)
            else Diag.errorD ("duplicate symbol: " ++ cfg.demangleFn name
                ++ " in " ++ F1 ++ " and " ++ F2)] := by
  obtain ⟨st', he, hf, hd⟩ :=
    insertFull_existing cfg st name styp (stOther % 4) false true (some F2) i hl
  have hb' : (st'.getSym i).body = SymbolBody.definedRegular name b0 t0 so0 v0 (some F1) :=
    (getSymBody_of_bodies_eq hf.2.1 i).trans hbody
  have hB' : (st'.getSym i).Binding = (st.getSym i).Binding := hf.2.2.1 i
  have hcmp : compareDefined (st'.getSym i) false binding = 0 := by
    simp only [compareDefined, hb', Symbol.isWeak, hB']
    simp [SymbolBody.isLazy, SymbolBody.isUndefined, SymbolBody.isShared, hb, hsb]
  have hq : compareDefinedNonCommon cfg (st'.getSym i) false binding
      = (0, st'.getSym i, []) := by
    simp only [compareDefinedNonCommon, hcmp]
    simp [hb', SymbolBody.isCommon]
  have hid : st'.updateSym i (fun _ => st'.getSym i) = st' := by
    have h0 : st'.symVector.set i (st'.getSym i) = st'.symVector := by
      rw [show st'.getSym i = st'.symVector.getD i defaultSymbol from rfl]
      exact set_getD_self _ _ _
    simp [SymbolTable.updateSym, h0]
  have haddnil : st'.addDiags [] = st' := by
    simp [SymbolTable.addDiags]
  simp only [addRegular, he, hq, hid, haddnil]
  norm_num
  rw [reportDuplicate, hb']
  have hdg : st'.diags = st.diags := hd htls
  have hlook : st'.lookup name = some i := by
    rw [SymbolTable.lookup, hf.1]; exact hl
  by_cases ha : cfg.allowMultipleDefinition <;>
    simp [ha, SymbolTable.addDiag, SymbolTable.findBody, SymbolTable.lookup,
      SymbolTable.getSym, conflictMsg, SymbolBody.nameOf, SymbolBody.sourceFile,
      getFilenameOpt, hdg] <;>
    exact ⟨⟨i, hlook, by rw [← List.getD_eq_getElem?_getD]; exact hb'⟩,
      by simp only [← String.append_assoc]⟩

theorem compareDefined_congr {s t : Symbol} (hb : s.body = t.body)
    (hB : s.Binding = t.Binding) (w : Bool) (binding : Nat) :
    compareDefined s w binding = compareDefined t w binding := by
  simp [compareDefined, hb, hB, Symbol.isWeak]

theorem addRegular_fresh (cfg : Config) (st : SymbolTable) (name : String)
    (binding styp stOther value : Nat) (sec : Option String)
    (h : st.lookup name = none) :
    addRegular cfg st name binding styp stOther value sec =
      { st with symtabIdx := st.symtabIdx ++ [(name, st.symVector.length)],
                symVector := st.symVector ++
                  [{ freshFullSym cfg name (stOther % 4) false true with
                      Binding := binding,
                      body := SymbolBody.definedRegular name binding styp stOther value sec }],
                diags := st.diags ++ (getVersionId cfg name).2 } := by
  have hq : compareDefinedNonCommon cfg (freshFullSym cfg name (stOther % 4) false true)
      true binding = (1, { freshFullSym cfg name (stOther % 4) false true with
        Binding := binding }, []) := by
    simp [compareDefinedNonCommon, compareDefined]
  simp only [addRegular, insertFull_fresh cfg st name styp (stOther % 4) false true sec h]
  simp only [SymbolTable.getSym, SymbolTable.updateSym, SymbolTable.setBody,
    SymbolTable.addDiags]
  rw [getD_append_len, hq]
  norm_num

theorem findBody_setBody (st : SymbolTable) (i : Nat) (b : SymbolBody) (name : String)
    (hl : st.lookup name = some i) (hlen : i < st.symVector.length) :
    (st.setBody i b).findBody name = some b := by
  have h2 : (st.setBody i b).getSym i = { st.getSym i with body := b } := by
    simp only [SymbolTable.setBody]
    exact getSym_updateSym_self st i _ hlen
  simp only [SymbolTable.findBody, SymbolTable.lookup]
  rw [show lookupIdx (st.setBody i b).symtabIdx name = some i from hl]
  show some (((st.setBody i b).getSym i).body) = some b
  rw [h2]

theorem addRegular_existing_lose (cfg : Config) (st : SymbolTable) (name : String)
    (binding styp stOther value : Nat) (sec : Option String) (i : Nat)
    (hl : st.lookup name = some i)
    (hc : compareDefined (st.getSym i) false binding = -1) :
    (addRegular cfg st name binding styp stOther value sec).bodies = st.bodies ∧
    (addRegular cfg st name binding styp stOther value sec).symtabIdx = st.symtabIdx := by
  obtain ⟨st', he, hf, _⟩ :=
    insertFull_existing cfg st name styp (stOther % 4) false true sec i hl
  have hc' : compareDefined (st'.getSym i) false binding = -1 :=
    (compareDefined_congr (getSymBody_of_bodies_eq hf.2.1 i) (hf.2.2.1 i) false binding).trans hc
  have hq : compareDefinedNonCommon cfg (st'.getSym i) false binding
      = (-1, st'.getSym i, []) := by
    simp [compareDefinedNonCommon, hc']
  have hid : st'.updateSym i (fun _ => st'.getSym i) = st' := by
    have h0 : st'.symVector.set i (st'.getSym i) = st'.symVector := by
      rw [show st'.getSym i = st'.symVector.getD i defaultSymbol from rfl]
      exact set_getD_self _ _ _
    simp [SymbolTable.updateSym, h0]
  simp only [addRegular, he, hq, hid]
  norm_num
  have hbod := hf.2.1
  have hidx := hf.1
  simp only [SymbolTable.bodies] at hbod
  simp [SymbolTable.addDiags, SymbolTable.bodies, hbod, hidx]

theorem addRegular_existing_win (cfg : Config) (st : SymbolTable) (name : String)
    (binding styp stOther value : Nat) (sec : Option String) (i : Nat)
    (hl : st.lookup name = some i) (hlen : i < st.symVector.length)
    (hc : compareDefined (st.getSym i) false binding = 1) :
    (addRegular cfg st name binding styp stOther value sec).findBody name
      = some (SymbolBody.definedRegular name binding styp stOther value sec) := by
  obtain ⟨st', he, hf, _⟩ :=
    insertFull_existing cfg st name styp (stOther % 4) false true sec i hl
  have hc' : compareDefined (st'.getSym i) false binding = 1 :=
    (compareDefined_congr (getSymBody_of_bodies_eq hf.2.1 i) (hf.2.2.1 i) false binding).trans hc
  have hq : compareDefinedNonCommon cfg (st'.getSym i) false binding
      = (1, { st'.getSym i with Binding := binding }, []) := by
    simp [compareDefinedNonCommon, hc']
  have hlen' : i < st'.symVector.length := hf.2.2.2.1 ▸ hlen
  simp only [addRegular, he, hq]
  norm_num
  have hl2 : ((st'.updateSym i (fun _ => { st'.getSym i with Binding := binding
      })).addDiags []).lookup name = some i := by
    simp only [SymbolTable.lookup, SymbolTable.addDiags, SymbolTable.updateSym]
    rw [hf.1]; exact hl
  have hlen2 : i < ((st'.updateSym i (fun _ => { st'.getSym i with Binding := binding
      })).addDiags []).symVector.length := by
    simp only [SymbolTable.addDiags, SymbolTable.updateSym, List.length_set]
    exact hlen'
  exact findBody_setBody _ i _ name hl2 hlen2

theorem findBody_congr {st st' : SymbolTable} (hb : st'.bodies = st.bodies)
    (hx : st'.symtabIdx = st.symtabIdx) (name : String) :
    st'.findBody name = st.findBody name := by
  simp only [SymbolTable.findBody, SymbolTable.lookup, hx]
  cases h : lookupIdx st.symtabIdx name with
  | none => rfl
  | some i => simp [getSymBody_of_bodies_eq hb i]

/-- C2: inserting a strong Regular definition of A from F1 followed by a
weak Regular definition of A from F2 yields the same final envelope
payload — the strong definition owned by F1 — as inserting the weak
definition first and the strong one second. -/
theorem strong_weak_order_independence (cfg : Config) (st : SymbolTable)
    (nameA F1 F2 : String) (bS tS soS vS tW soW vW : Nat)
    (hfresh : st.lookup nameA = none) (hbS : bS ≠ STB_WEAK) :
    (addRegular cfg (addRegular cfg st nameA bS tS soS vS (some F1))
        nameA STB_WEAK tW soW vW (some F2)).findBody nameA
      = some (SymbolBody.definedRegular nameA bS tS soS vS (some F1)) ∧
    (addRegular cfg (addRegular cfg st nameA STB_WEAK tW soW vW (some F2))
        nameA bS tS soS vS (some F1)).findBody nameA
      = some (SymbolBody.definedRegular nameA bS tS soS vS (some F1)) := by
  constructor
  · rw [addRegular_fresh cfg st nameA bS tS soS vS (some F1) hfresh]
    set T1 : SymbolTable :=
      { st with symtabIdx := st.symtabIdx ++ [(nameA, st.symVector.length)],
                symVector := st.symVector ++
                  [{ freshFullSym cfg nameA (soS % 4) false true with
                      Binding := bS,
                      body := SymbolBody.definedRegular nameA bS tS soS vS (some F1) }],
                diags := st.diags ++ (getVersionId cfg nameA).2 } with hT1
    have hl2 : T1.lookup nameA = some st.symVector.length := by
      rw [hT1]
      simp only [SymbolTable.lookup]
      rw [lookupIdx_append_of_none hfresh]
      simp [lookupIdx]
    have hgs : T1.getSym st.symVector.length =
        { freshFullSym cfg nameA (soS % 4) false true with
            Binding := bS,
            body := SymbolBody.definedRegular nameA bS tS soS vS (some F1) } := by
      rw [hT1]
      simp only [SymbolTable.getSym]
      exact getD_append_len _ _ _
    have hc : compareDefined (T1.getSym st.symVector.length) false STB_WEAK = -1 := by
      rw [hgs]
      simp [compareDefined, SymbolBody.isLazy, SymbolBody.isUndefined, SymbolBody.isShared]
    obtain ⟨hbod, hidx⟩ := addRegular_existing_lose cfg T1 nameA STB_WEAK tW soW vW
      (some F2) st.symVector.length hl2 hc
    rw [findBody_congr hbod hidx]
    simp only [SymbolTable.findBody]
    rw [hl2]
    show some ((T1.getSym st.symVector.length).body) = _
    rw [hgs]
  · rw [addRegular_fresh cfg st nameA STB_WEAK tW soW vW (some F2) hfresh]
    set T2 : SymbolTable :=
      { st with symtabIdx := st.symtabIdx ++ [(nameA, st.symVector.length)],
                symVector := st.symVector ++
                  [{ freshFullSym cfg nameA (soW % 4) false true with
                      Binding := STB_WEAK,
                      body := SymbolBody.definedRegular nameA STB_WEAK tW soW vW (some F2) }],
                diags := st.diags ++ (getVersionId cfg nameA).2 } with hT2
    have hl2 : T2.lookup nameA = some st.symVector.length := by
      rw [hT2]
      simp only [SymbolTable.lookup]
      rw [lookupIdx_append_of_none hfresh]
      simp [lookupIdx]
    have hgs : T2.getSym st.symVector.length =
        { freshFullSym cfg nameA (soW % 4) false true with
            Binding := STB_WEAK,
            body := SymbolBody.definedRegular nameA STB_WEAK tW soW vW (some F2) } := by
      rw [hT2]
      simp only [SymbolTable.getSym]
      exact getD_append_len _ _ _
    have hlen : st.symVector.length < T2.symVector.length := by
      rw [hT2]; simp
    have hc : compareDefined (T2.getSym st.symVector.length) false bS = 1 := by
      rw [hgs]
      simp [compareDefined, SymbolBody.isLazy, SymbolBody.isUndefined,
        SymbolBody.isShared, Symbol.isWeak, hbS]
    exact addRegular_existing_win cfg T2 nameA bS tS soS vS (some F1)
      st.symVector.length hl2 hlen hc

theorem addRegular_duplicate_witness :
    (st1dup.lookup "bar" = some 0 ∧
     (st1dup.getSym 0).body = SymbolBody.definedRegular "bar" 1 0 0 0 (some "F1") ∧
     (st1dup.getSym 0).Binding ≠ STB_WEAK ∧ (1 : Nat) ≠ STB_WEAK ∧
     tlsMismatch (st1dup.getSym 0).body 0 = false) ∧
    ((addRegular cfg0 st1dup "bar" 1 0 0 0 (some "F2")).findBody "bar"
        = some (SymbolBody.definedRegular "bar" 1 0 0 0 (some "F1")) ∧
     (addRegular cfg0 st1dup "bar" 1 0 0 0 (some "F2")).diags
        = st1dup.diags ++ [if cfg0.allowMultipleDefinition
            then Diag.warningD ("duplicate symbol: " ++ cfg0.demangleFn "bar"
                ++ " in " ++ "F1" ++ " and " ++ "F2")
            else Diag.errorD ("duplicate symbol: " ++ cfg0.demangleFn "bar"
                ++ " in " ++ "F1" ++ " and " ++ "F2")]) :=
  ⟨⟨by decide, by decide, by decide, by decide, by decide⟩,
   addRegular_duplicate cfg0 st1dup "bar" 1 0 0 0 "F1" "F2" 0 1 0 0 0
     (by decide) (by decide) (by decide) (by decide) (by decide)⟩

theorem strong_weak_order_independence_witness :
    (emptyTable.lookup "A" = none ∧ (1 : Nat) ≠ STB_WEAK) ∧
    ((addRegular cfg0 (addRegular cfg0 emptyTable "A" 1 0 0 0 (some "F1"))
        "A" STB_WEAK 0 0 0 (some "F2")).findBody "A"
      = some (SymbolBody.definedRegular "A" 1 0 0 0 (some "F1")) ∧
     (addRegular cfg0 (addRegular cfg0 emptyTable "A" STB_WEAK 0 0 0 (some "F2"))
        "A" 1 0 0 0 (some "F1")).findBody "A"
      = some (SymbolBody.definedRegular "A" 1 0 0 0 (some "F1"))) :=
  ⟨⟨rfl, by decide⟩, strong_weak_order_independence cfg0 emptyTable "A" "F1" "F2"
      1 0 0 0 0 0 0 rfl (by decide)⟩

/-- C4 (amended): when the envelope holds a Common record and the
incoming Common has the *same* strength (neither the stored envelope's
binding nor the incoming binding is weak, verdict 0), the records merge:
stored size becomes the maximum of the two sizes and stored alignment
the maximum of the two alignments.  (An incoming *weak* common is
discarded by `compareDefined`, and a strong common over a weak-bound
envelope replaces the record outright, so the merge happens exactly in
the verdict-0 case.) -/
theorem addCommon_merge_max (cfg : Config) (st : SymbolTable) (name : String)
    (size alignment binding stOther styp : Nat) (file : Option String)
    (nmS : String) (szV alV soV tyV : Nat) (iV : Nat)
    (hl : st.lookup name = some iV) (hlen : iV < st.symVector.length)
    (hbody : (st.getSym iV).body = SymbolBody.definedCommon nmS szV alV soV tyV)
    (hsb : (st.getSym iV).Binding ≠ STB_WEAK)
    (hb : binding ≠ STB_WEAK) :
    (addCommon cfg st name size alignment binding stOther styp file).findBody name
      = some (SymbolBody.definedCommon nmS (max szV size) (max alV alignment) soV tyV) := by
  obtain ⟨st', he, hf, _⟩ :=
    insertFull_existing cfg st name styp (stOther % 4) false true file iV hl
  have hb' : (st'.getSym iV).body = SymbolBody.definedCommon nmS szV alV soV tyV :=
    (getSymBody_of_bodies_eq hf.2.1 iV).trans hbody
  have hB' : (st'.getSym iV).Binding = (st.getSym iV).Binding := hf.2.2.1 iV
  have hc : compareDefined (st'.getSym iV) false binding = 0 := by
    simp only [compareDefined, hb', Symbol.isWeak, hB']
    simp [SymbolBody.isLazy, SymbolBody.isUndefined, SymbolBody.isShared, hb, hsb]
  simp only [addCommon, he, hc]
  norm_num
  rw [hb']
  have hlen' : iV < st'.symVector.length := hf.2.2.2.1 ▸ hlen
  by_cases hw : cfg.warnCommon = true <;>
    simp only [hw, if_true, if_false, Bool.false_eq_true, ite_true, ite_false]
  · have hl3 : (st'.addDiag (Diag.warningD ("multiple common of " ++ nmS))).lookup name
        = some iV := by
      simp only [SymbolTable.lookup, SymbolTable.addDiag]
      rw [hf.1]; exact hl
    exact findBody_setBody _ iV _ name hl3 hlen'
  · have hl3 : st'.lookup name = some iV := by
      rw [SymbolTable.lookup, hf.1]; exact hl
    exact findBody_setBody _ iV _ name hl3 hlen'

/-- C4 counterexample: an incoming Common with *weaker* binding does
not merge.  After a global common `c` (size 4, alignment 4), a weak
common `c` of size 8 and alignment 8 is discarded: the stored size
stays 4, not `max 4 8`, refuting the claim that a same-or-weaker
binding causes a size/alignment merge (and with it the invariant that
a Common envelope always keeps the maximum size seen). -/
theorem addCommon_weak_discarded_cex :
    (addCommon cfg0 st4a "c" 8 8 STB_WEAK 0 0 (some "F2")).findBody "c"
      = some (SymbolBody.definedCommon "c" 4 4 0 0) ∧
    ¬ ((4 : Nat) = max 4 8) := ⟨by decide, by decide⟩

theorem addCommon_merge_max_witness :
    (st4a.lookup "c" = some 0 ∧ 0 < st4a.symVector.length ∧
     (st4a.getSym 0).body = SymbolBody.definedCommon "c" 4 4 0 0 ∧
     (st4a.getSym 0).Binding ≠ STB_WEAK ∧ (1 : Nat) ≠ STB_WEAK) ∧
    (addCommon cfg0 st4a "c" 8 8 1 0 0 (some "F2")).findBody "c"
      = some (SymbolBody.definedCommon "c" (max 4 8) (max 4 8) 0 0) :=
  ⟨⟨by decide, by decide, by decide, by decide, by decide⟩,
   addCommon_merge_max cfg0 st4a "c" 8 8 1 0 0 (some "F2") "c" 4 4 0 0 0
     (by decide) (by decide) (by decide) (by decide) (by decide)⟩

theorem markSharedUsed_frame (st : SymbolTable) (b : SymbolBody) :
    (markSharedUsed st b).symtabIdx = st.symtabIdx ∧
    (markSharedUsed st b).bodies = st.bodies ∧
    (∀ j, (markSharedUsed st b).getSym j = st.getSym j) ∧
    (markSharedUsed st b).symVector.length = st.symVector.length := by
  cases b <;> exact ⟨rfl, rfl, fun _ => rfl, rfl⟩

theorem undefStrengthen_frame (st : SymbolTable) (i binding : Nat) :
    (undefStrengthen st i binding).symtabIdx = st.symtabIdx ∧
    (undefStrengthen st i binding).bodies = st.bodies ∧
    (undefStrengthen st i binding).symVector.length = st.symVector.length := by
  unfold undefStrengthen
  by_cases hb : binding ≠ STB_WEAK
  · rw [if_pos hb]
    by_cases hc : ((st.getSym i).body.isShared || (st.getSym i).body.isLazy) = true
    · simp only [hc, if_true]
      set stU := st.updateSym i (fun s => { s with Binding := binding }) with hstU
      obtain ⟨m1, m2, _, m4⟩ := markSharedUsed_frame stU ((stU.getSym i).body)
      refine ⟨m1.trans ?_, m2.trans ?_, m4.trans ?_⟩
      · rfl
      · exact bodies_updateSym st i _ (fun _ => rfl)
      · exact length_updateSym st i _
    · simp only [hc, Bool.false_eq_true, if_false]
      obtain ⟨m1, m2, _, m4⟩ := markSharedUsed_frame st ((st.getSym i).body)
      exact ⟨m1, m2, m4⟩
  · rw [if_neg hb]
    exact ⟨rfl, rfl, rfl⟩

/-- C6: for an envelope currently holding a Shared record: an incoming
weak Regular definition replaces the shared record (verdict +1), while
an incoming undefined reference, an incoming shared symbol, and an
incoming lazy record are discarded (verdict −1) — the stored payload
survives unchanged. -/
theorem shared_envelope_row (cfg : Config) (st : SymbolTable) (name : String) (i : Nat)
    (fl nm : String) (ty vis : Nat) (vd : Option Nat)
    (hl : st.lookup name = some i) (hlen : i < st.symVector.length)
    (hbody : (st.getSym i).body = SymbolBody.sharedB fl nm ty vis vd) :
    (∀ tW soW vW sec, (addRegular cfg st name STB_WEAK tW soW vW sec).findBody name
        = some (SymbolBody.definedRegular name STB_WEAK tW soW vW sec)) ∧
    (∀ fuel b so t co f bc,
        (addUndefined fuel cfg st name b so t co f bc).findBody name = st.findBody name) ∧
    (∀ fn sym, (addShared cfg st fn name sym).findBody name = st.findBody name) ∧
    (∀ an s, s.sname = name → addLazyArchiveCore cfg st an s = (st, none)) ∧
    (∀ obj, addLazyObjectCore cfg st name obj = (st, none)) := by
  refine ⟨?_, ?_, ?_, ?_, ?_⟩
  · intro tW soW vW sec
    have hc : compareDefined (st.getSym i) false STB_WEAK = 1 := by
      simp [compareDefined, hbody, SymbolBody.isLazy, SymbolBody.isUndefined,
        SymbolBody.isShared]
    exact addRegular_existing_win cfg st name STB_WEAK tW soW vW sec i hl hlen hc
  · intro fuel b so t co f bc
    obtain ⟨st', he, hf, _⟩ :=
      insertFull_existing cfg st name t (so % 4) co (f.isNone || !bc) f i hl
    have hb' : (st'.getSym i).body = SymbolBody.sharedB fl nm ty vis vd :=
      (getSymBody_of_bodies_eq hf.2.1 i).trans hbody
    obtain ⟨s1, s2, s3⟩ := undefStrengthen_frame st' i b
    have hbX : ((undefStrengthen st' i b).getSym i).body
        = SymbolBody.sharedB fl nm ty vis vd :=
      (getSymBody_of_bodies_eq s2 i).trans hb'
    have hstep : undefLazyStep (undefStrengthen st' i b) i t
        = (undefStrengthen st' i b, none) := by
      simp [undefLazyStep, hbX, SymbolBody.isLazy]
    simp only [addUndefined, addUndefinedCore, he]
    norm_num
    simp only [hstep]
    exact findBody_congr (s2.trans hf.2.1) (s1.trans hf.1) name
  · intro fn sym
    obtain ⟨st', he, hf, _⟩ :=
      insertFull_existing cfg st name sym.styp STV_DEFAULT true false (some fn) i hl
    have hb' : (st'.getSym i).body = SymbolBody.sharedB fl nm ty vis vd :=
      (getSymBody_of_bodies_eq hf.2.1 i).trans hbody
    have hE1 : (if sym.visibility = STV_DEFAULT
        then st'.updateSym i (fun s => { s with ExportDynamic := true })
        else st').bodies = st'.bodies := by
      by_cases hv : sym.visibility = STV_DEFAULT
      · simp only [hv, if_true]; exact bodies_updateSym st' i _ (fun _ => rfl)
      · simp [hv]
    have hE2 : (if sym.visibility = STV_DEFAULT
        then st'.updateSym i (fun s => { s with ExportDynamic := true })
        else st').symtabIdx = st'.symtabIdx := by
      by_cases hv : sym.visibility = STV_DEFAULT <;> simp [hv, SymbolTable.updateSym]
    set stE := if sym.visibility = STV_DEFAULT
        then st'.updateSym i (fun s => { s with ExportDynamic := true })
        else st' with hstE
    have hbE : (stE.getSym i).body = SymbolBody.sharedB fl nm ty vis vd :=
      (getSymBody_of_bodies_eq hE1 i).trans hb'
    simp only [addShared, he]
    norm_num
    simp only [← hstE, hbE, SymbolBody.isUndefined, Bool.false_eq_true, if_false]
    exact findBody_congr (hE1.trans hf.2.1) (hE2.trans hf.1) name
  · intro an s hs
    rw [show addLazyArchiveCore cfg st an s
        = addLazyArchiveCore cfg st an s from rfl]
    simp only [addLazyArchiveCore, hs, insertName_existing cfg st name i hl]
    norm_num
    simp [hbody, SymbolBody.isUndefined]
  · intro obj
    simp only [addLazyObjectCore, insertName_existing cfg st name i hl]
    norm_num
    simp [hbody, SymbolBody.isUndefined]

theorem shared_envelope_row_witness :
    (st6.lookup "s" = some 0 ∧ 0 < st6.symVector.length ∧
     (st6.getSym 0).body = SymbolBody.sharedB "libz" "s" 0 0 none) ∧
    ((addRegular cfg0 st6 "s" STB_WEAK 0 0 0 (some "O1")).findBody "s"
        = some (SymbolBody.definedRegular "s" STB_WEAK 0 0 0 (some "O1")) ∧
     (addUndefined 3 cfg0 st6 "s" 1 0 0 false none false).findBody "s"
        = st6.findBody "s" ∧
     (addShared cfg0 st6 "lib2" "s"
        { sname := "s", styp := 0, visibility := 0, verdef := none }).findBody "s"
        = st6.findBody "s" ∧
     addLazyArchiveCore cfg0 st6 "A" { sname := "s", member := none } = (st6, none) ∧
     addLazyObjectCore cfg0 st6 "s"
        { fname := "L", names := [], content := none } = (st6, none)) :=
  ⟨⟨by decide, by decide, by decide⟩, by
    have h := shared_envelope_row cfg0 st6 "s" 0 "libz" "s" 0 0 none
      (by decide) (by decide) (by decide)
    exact ⟨h.1 0 0 0 (some "O1"), h.2.1 3 1 0 0 false none false,
      h.2.2.1 "lib2" { sname := "s", styp := 0, visibility := 0, verdef := none },
      h.2.2.2.1 "A" { sname := "s", member := none } rfl,
      h.2.2.2.2 { fname := "L", names := [], content := none }⟩⟩

theorem dropUntilAt_no_at {l : List Char} (h : ∀ c ∈ l, c ≠ '@') (r : List Char) :
    dropUntilAt (l ++ '@' :: r) = some r := by
  induction l with
  | nil => simp [dropUntilAt]
  | cons c l ih =>
      have hc : c ≠ '@' := h c (by simp)
      simp only [List.cons_append, dropUntilAt, if_neg hc]
      exact ih (fun x hx => h x (by simp [hx]))

theorem lookupVersion_ge {vs : List Version} {j : Nat} {v : String} {i : Nat}
    (h : lookupVersion vs j v = some i) : j ≤ i := by
  induction vs generalizing j with
  | nil => simp [lookupVersion] at h
  | cons w vs ih =>
      by_cases hw : w.name = v
      · simp [lookupVersion, hw] at h
        omega
      · simp only [lookupVersion, if_neg hw] at h
        have := ih h
        omega

theorem toList_append3 (base mid ver : String) :
    (base ++ mid ++ ver).toList = base.toList ++ (mid.toList ++ ver.toList) := by
  simp [String.toList]

/-- C5 (amended): at envelope creation, for a version tag `ver` that the
scan (which starts its counter at 2) finds at id `i`: `base@@ver`
receives id `i` with no hidden bit, and `base@ver` receives
`i ||| VERSYM_HIDDEN`.  Every id referring to a declared version is at
least 2 — not 3 — and the reserved sentinels are VER_NDX_LOCAL = 0 and
VER_NDX_GLOBAL = 1 — not 1 and 2. -/
theorem versionId_assignment (cfg : Config) (base ver : String) (i : Nat)
    (hbase : ∀ c ∈ base.toList, c ≠ '@')
    (hver : ver.toList.head? ≠ some '@')
    (hfound : lookupVersion cfg.symbolVersions 2 ver = some i) :
    getVersionId cfg (base ++ "@@" ++ ver) = (i, []) ∧
    getVersionId cfg (base ++ "@" ++ ver) = (i ||| VERSYM_HIDDEN, []) ∧
    2 ≤ i ∧ VER_NDX_LOCAL = 0 ∧ VER_NDX_GLOBAL = 1 := by
  have hmk : String.mk ver.toList = ver := rfl
  refine ⟨?_, ?_, lookupVersion_ge hfound, rfl, rfl⟩
  · have h1 : (base ++ "@@" ++ ver).toList = base.toList ++ ('@' :: '@' :: ver.toList) := by
      rw [toList_append3]; rfl
    have h2 : dropUntilAt (base ++ "@@" ++ ver).toList = some ('@' :: ver.toList) := by
      rw [h1]; exact dropUntilAt_no_at hbase _
    simp only [getVersionId, h2]
    simp [hmk, hfound]
  · have h1 : (base ++ "@" ++ ver).toList = base.toList ++ ('@' :: ver.toList) := by
      rw [toList_append3]; rfl
    have h2 : dropUntilAt (base ++ "@" ++ ver).toList = some ver.toList := by
      rw [h1]; exact dropUntilAt_no_at hbase _
    have hd : (ver.toList.head? == some '@') = false := by
      simp only [beq_eq_false_iff_ne, ne_eq]
      exact hver
    simp only [getVersionId, h2, hd]
    simp [hmk, hfound]

/-- C5 counterexample: with a declared version `V1`, `foo@@V1` receives
version id 2 — an id that refers to a declared version yet is smaller
than 3, contradicting the claim that declared-version ids are at least
3 with 2 reserved for VER_NDX_GLOBAL (the source's scan starts at 2 and
the ELF sentinels are 0 and 1). -/
theorem versionId_starts_at_two_cex :
    getVersionId cfg5 "foo@@V1" = (2, []) ∧ ¬ (3 ≤ 2) := ⟨by decide, by decide⟩

theorem versionId_assignment_witness :
    ((∀ c ∈ "foo".toList, c ≠ '@') ∧ "V1".toList.head? ≠ some '@' ∧
      lookupVersion cfg5.symbolVersions 2 "V1" = some 2) ∧
    (getVersionId cfg5 ("foo" ++ "@@" ++ "V1") = (2, []) ∧
     getVersionId cfg5 ("foo" ++ "@" ++ "V1") = (2 ||| VERSYM_HIDDEN, []) ∧
     2 ≤ 2 ∧ VER_NDX_LOCAL = 0 ∧ VER_NDX_GLOBAL = 1) :=
  ⟨⟨by decide, by decide, by decide⟩,
   versionId_assignment cfg5 "foo" "V1" 2 (by decide) (by decide) (by decide)⟩

theorem undefStrengthen_binding (st : SymbolTable) (i b : Nat)
    (hlen : i < st.symVector.length)
    (hc : ((st.getSym i).body.isShared || (st.getSym i).body.isLazy) = true)
    (hb : b ≠ STB_WEAK) :
    ((undefStrengthen st i b).getSym i).Binding = b := by
  unfold undefStrengthen
  rw [if_pos hb]
  simp only [hc, if_true]
  set stU := st.updateSym i (fun s => { s with Binding := b }) with hstU
  obtain ⟨_, _, m3, _⟩ := markSharedUsed_frame stU ((stU.getSym i).body)
  rw [m3 i, hstU, getSym_updateSym_self st i _ hlen]

/-- C3 (amended): when an envelope holding a LazyArchive or LazyObject
record receives an undefined reference:
with a non-weak binding, the engine requests exactly the lazy record's
file — the archive member, or the buffered object; `none` for an empty
buffer, in which case nothing happens — leaving the stored payload in
place until the fetched file's symbols re-enter resolution through
`addFile`; with a weak binding *while the envelope's binding is weak*
(the envelope was never strengthened), no fetch happens and the lazy
record is preserved with only its type attribute replaced by the
incoming reference's type. -/
theorem lazy_undefined_resolution (cfg : Config) (st : SymbolTable) (name : String)
    (i : Nat) (hl : st.lookup name = some i) (hlen : i < st.symVector.length)
    (hlazy : (st.getSym i).body.isLazy = true) :
    (∀ fuel b so t co f bc, b ≠ STB_WEAK →
      (addUndefinedCore cfg st name b so t co f bc).2
          = lazyGetFile (st.getSym i).body ∧
      ((addUndefinedCore cfg st name b so t co f bc).1).findBody name
          = st.findBody name ∧
      addUndefined fuel cfg st name b so t co f bc
        = (match (addUndefinedCore cfg st name b so t co f bc).2 with
           | none => (addUndefinedCore cfg st name b so t co f bc).1
           | some o => addFile fuel cfg (addUndefinedCore cfg st name b so t co f bc).1
               (InputFile.object o))) ∧
    (∀ fuel so t co f bc, (st.getSym i).Binding = STB_WEAK →
      addUndefined fuel cfg st name STB_WEAK so t co f bc
        = (addUndefinedCore cfg st name STB_WEAK so t co f bc).1 ∧
      (addUndefinedCore cfg st name STB_WEAK so t co f bc).2 = none ∧
      ((addUndefinedCore cfg st name STB_WEAK so t co f bc).1).findBody name
        = some ((st.getSym i).body.withLazyType t)) := by
  constructor
  · intro fuel b so t co f bc hbw
    obtain ⟨st', he, hf, _⟩ :=
      insertFull_existing cfg st name t (so % 4) co (f.isNone || !bc) f i hl
    have hlen' : i < st'.symVector.length := hf.2.2.2.1 ▸ hlen
    have hb' : (st'.getSym i).body = (st.getSym i).body := getSymBody_of_bodies_eq hf.2.1 i
    have hlazy' : (st'.getSym i).body.isLazy = true := by rw [hb']; exact hlazy
    have hcond : ((st'.getSym i).body.isShared || (st'.getSym i).body.isLazy) = true := by
      simp [hlazy']
    obtain ⟨s1, s2, _⟩ := undefStrengthen_frame st' i b
    have hbS : ((undefStrengthen st' i b).getSym i).body = (st.getSym i).body :=
      (getSymBody_of_bodies_eq s2 i).trans hb'
    have hBS : ((undefStrengthen st' i b).getSym i).Binding = b :=
      undefStrengthen_binding st' i b hlen' hcond hbw
    have hlazyS : ((undefStrengthen st' i b).getSym i).body.isLazy = true := by
      rw [hbS]; exact hlazy
    have hnw : ((undefStrengthen st' i b).getSym i).isWeak = false := by
      simp [Symbol.isWeak, hBS, hbw]
    have hstep : undefLazyStep (undefStrengthen st' i b) i t
        = (undefStrengthen st' i b, lazyGetFile ((undefStrengthen st' i b).getSym i).body) := by
      simp [undefLazyStep, hlazyS, hnw]
    have hcore : addUndefinedCore cfg st name b so t co f bc
        = (undefStrengthen st' i b, lazyGetFile (st.getSym i).body) := by
      simp only [addUndefinedCore, he]
      norm_num
      rw [hstep, hbS]
    refine ⟨by rw [hcore], ?_, rfl⟩
    rw [hcore]
    exact findBody_congr (s2.trans hf.2.1) (s1.trans hf.1) name
  · intro fuel so t co f bc hW
    obtain ⟨st', he, hf, _⟩ :=
      insertFull_existing cfg st name t (so % 4) co (f.isNone || !bc) f i hl
    have hlen' : i < st'.symVector.length := hf.2.2.2.1 ▸ hlen
    have hb' : (st'.getSym i).body = (st.getSym i).body := getSymBody_of_bodies_eq hf.2.1 i
    have hlazy' : (st'.getSym i).body.isLazy = true := by rw [hb']; exact hlazy
    have hstrength : undefStrengthen st' i STB_WEAK = st' := by
      unfold undefStrengthen
      simp
    have hW' : (st'.getSym i).Binding = STB_WEAK := (hf.2.2.1 i).trans hW
    have hweak : (st'.getSym i).isWeak = true := by simp [Symbol.isWeak, hW']
    have hstep : undefLazyStep st' i t
        = (st'.setBody i ((st'.getSym i).body.withLazyType t), none) := by
      simp [undefLazyStep, hlazy', hweak]
    have hcore : addUndefinedCore cfg st name STB_WEAK so t co f bc
        = (st'.setBody i ((st'.getSym i).body.withLazyType t), none) := by
      simp only [addUndefinedCore, he]
      norm_num
      rw [hstrength, hstep]
    refine ⟨?_, by rw [hcore], ?_⟩
    · show (match (addUndefinedCore cfg st name STB_WEAK so t co f bc).2 with
           | none => (addUndefinedCore cfg st name STB_WEAK so t co f bc).1
           | some o => addFile fuel cfg
               (addUndefinedCore cfg st name STB_WEAK so t co f bc).1 (InputFile.object o))
          = (addUndefinedCore cfg st name STB_WEAK so t co f bc).1
      rw [hcore]
    · rw [hcore]
      have hl' : st'.lookup name = some i := by rw [SymbolTable.lookup, hf.1]; exact hl
      rw [findBody_setBody st' i _ name hl' hlen', hb']

/-- C3 counterexample: an envelope holding a LazyArchive record receives
a weak undefined reference of type 5, yet the stored type stays
`UnknownType` — the type is *not* copied, because the envelope's binding
had already been strengthened by an earlier strong reference (the code
conditions the copy on the envelope's weakness, not the incoming
reference's). -/
theorem weak_undefined_type_copy_cex :
    st3b.findBody "qux" = some (SymbolBody.lazyArchive "A" "qux" none UnknownType) ∧
    st3c.findBody "qux" = some (SymbolBody.lazyArchive "A" "qux" none UnknownType) ∧
    st3c.findBody "qux"
      ≠ some ((SymbolBody.lazyArchive "A" "qux" none UnknownType).withLazyType 5) :=
  ⟨by decide, by decide, by decide⟩

theorem lazy_undefined_resolution_witness :
    (st3a.lookup "qux" = some 0 ∧ 0 < st3a.symVector.length ∧
     (st3a.getSym 0).body.isLazy = true ∧ (1 : Nat) ≠ STB_WEAK ∧
     (st3a.getSym 0).Binding = STB_WEAK) ∧
    ((addUndefinedCore cfg0 st3a "qux" 1 0 0 false none false).2
        = lazyGetFile (st3a.getSym 0).body ∧
     ((addUndefinedCore cfg0 st3a "qux" 1 0 0 false none false).1).findBody "qux"
        = st3a.findBody "qux" ∧
     (addUndefinedCore cfg0 st3a "qux" STB_WEAK 0 5 false none false).2 = none ∧
     ((addUndefinedCore cfg0 st3a "qux" STB_WEAK 0 5 false none false).1).findBody "qux"
        = some ((st3a.getSym 0).body.withLazyType 5)) := by
  have h := lazy_undefined_resolution cfg0 st3a "qux" 0 (by decide) (by decide) (by decide)
  have h1 := h.1 3 1 0 0 false none false (by decide)
  have h2 := h.2 3 0 5 false none false (by decide)
  exact ⟨⟨by decide, by decide, by decide, by decide, by decide⟩,
    ⟨h1.1, h1.2.1, h2.2.1, h2.2.2⟩⟩

/-- C9 counterexample: applying `--wrap malloc` twice with no external
references does not restore the pre-wrap payloads.  The two `memcpy`
calls form a copy chain, not a swap: after the second wrap the `malloc`
envelope holds `__wrap_malloc`'s undefined payload, not its original
strong definition. -/
theorem wrap_twice_not_noop_cex :
    st9a.findBody "malloc"
      = some (SymbolBody.definedRegular "malloc" 1 0 0 0 (some "F1")) ∧
    st9c.findBody "malloc"
      = some (SymbolBody.undefinedB "__wrap_malloc" 0 0 none) ∧
    st9c.findBody "malloc" ≠ st9a.findBody "malloc" :=
  ⟨by decide, by decide, by decide⟩

theorem real_ne_wrap (name : String) : ("__real_" ++ name) ≠ ("__wrap_" ++ name) := by
  intro h
  have h2 : ("__real_" ++ name).data = ("__wrap_" ++ name).data := by rw [h]
  simp only [String.data_append] at h2
  have h3 : "__real_".data = "__wrap_".data := List.append_cancel_right h2
  simp at h3

theorem addUndefined1_fresh (fuel : Nat) (cfg : Config) (st : SymbolTable) (n : String)
    (h : st.lookup n = none) :
    addUndefined1 fuel cfg st n =
      { st with symtabIdx := st.symtabIdx ++ [(n, st.symVector.length)],
                symVector := st.symVector ++ [freshUndefSym cfg n],
                diags := st.diags ++ (getVersionId cfg n).2 } := by
  simp only [addUndefined1, addUndefined, addUndefinedCore,
    insertFull_fresh cfg st n 0 (STV_DEFAULT % 4) false (Option.isNone none || !false) none h]
  simp only [SymbolTable.getSym, SymbolTable.updateSym, SymbolTable.setBody]
  norm_num
  rfl

theorem addUndefined1_existing_frame (fuel : Nat) (cfg : Config) (st : SymbolTable)
    (n : String) (j : Nat) (hl : st.lookup n = some j)
    (hnl : (st.getSym j).body.isLazy = false) :
    (addUndefined1 fuel cfg st n).symtabIdx = st.symtabIdx ∧
    (addUndefined1 fuel cfg st n).bodies = st.bodies ∧
    (addUndefined1 fuel cfg st n).symVector.length = st.symVector.length := by
  obtain ⟨st', he, hf, _⟩ :=
    insertFull_existing cfg st n 0 (STV_DEFAULT % 4) false true none j hl
  have hb' : (st'.getSym j).body = (st.getSym j).body := getSymBody_of_bodies_eq hf.2.1 j
  obtain ⟨s1, s2, s3⟩ := undefStrengthen_frame st' j STB_GLOBAL
  have hbS : ((undefStrengthen st' j STB_GLOBAL).getSym j).body = (st.getSym j).body :=
    (getSymBody_of_bodies_eq s2 j).trans hb'
  have hlazyS : ((undefStrengthen st' j STB_GLOBAL).getSym j).body.isLazy = false := by
    rw [hbS]; exact hnl
  have hstep : undefLazyStep (undefStrengthen st' j STB_GLOBAL) j 0
      = (undefStrengthen st' j STB_GLOBAL, none) := by
    simp [undefLazyStep, hlazyS]
  simp only [addUndefined1, addUndefined, addUndefinedCore]
  norm_num
  rw [he]
  norm_num
  rw [hstep]
  exact ⟨s1.trans hf.1, s2.trans hf.2.1, s3.trans hf.2.2.2.1⟩

theorem map_set {α β : Type} (f : α → β) :
    ∀ (l : List α) (i : Nat) (x : α), (l.set i x).map f = (l.map f).set i (f x)
  | [], _, _ => rfl
  | _ :: _, 0, _ => rfl
  | a :: l, i + 1, x => by simpa using map_set f l i x

theorem setBody_bodies (st : SymbolTable) (k : Nat) (b : SymbolBody) :
    (st.setBody k b).bodies = st.bodies.set k b := by
  simp only [SymbolTable.setBody, SymbolTable.updateSym, SymbolTable.bodies]
  rw [map_set]

theorem setBody_symtabIdx (st : SymbolTable) (k : Nat) (b : SymbolBody) :
    (st.setBody k b).symtabIdx = st.symtabIdx := rfl

theorem setBody_length (st : SymbolTable) (k : Nat) (b : SymbolBody) :
    (st.setBody k b).symVector.length = st.symVector.length := by
  simp [SymbolTable.setBody, SymbolTable.updateSym]

theorem bodies_length (st : SymbolTable) : st.bodies.length = st.symVector.length := by
  simp [SymbolTable.bodies]

theorem findBody_eq_of (st : SymbolTable) (n : String) (j : Nat)
    (hl : st.lookup n = some j) :
    st.findBody n = some (st.bodies.getD j (defaultSymbol.body)) := by
  simp only [SymbolTable.findBody, hl]
  show some ((st.getSym j).body) = _
  rw [bodies_getD]

/-- C9 (amended): applying `--wrap NAME` twice (NAME present, the
`__real_`/`__wrap_` envelopes initially absent, NAME's record not lazy)
is *not* a no-op: the two `memcpy` calls form a copy chain, not a swap,
so after the second application the NAME, `__real_NAME` and
`__wrap_NAME` envelopes all hold the payload `__wrap_NAME` held after
the first wrap — the fresh undefined `__wrap_NAME` body — rather than
the payloads they held before the first wrap. -/
theorem wrap_twice_copy_chain (fuel : Nat) (cfg : Config) (st : SymbolTable)
    (name : String) (i : Nat)
    (hl : st.lookup name = some i) (hlen : i < st.symVector.length)
    (hreal : st.lookup ("__real_" ++ name) = none)
    (hwrap : st.lookup ("__wrap_" ++ name) = none)
    (hnl : (st.getSym i).body.isLazy = false) :
    (wrap fuel cfg (wrap fuel cfg st name) name).findBody name
      = some (SymbolBody.undefinedB ("__wrap_" ++ name) 0 0 none) ∧
    (wrap fuel cfg (wrap fuel cfg st name) name).findBody ("__real_" ++ name)
      = some (SymbolBody.undefinedB ("__wrap_" ++ name) 0 0 none) ∧
    (wrap fuel cfg (wrap fuel cfg st name) name).findBody ("__wrap_" ++ name)
      = some (SymbolBody.undefinedB ("__wrap_" ++ name) 0 0 none) := by
  have hA1 := addUndefined1_fresh fuel cfg st ("__real_" ++ name) hreal
  set T_A : SymbolTable :=
    { st with symtabIdx := st.symtabIdx ++ [("__real_" ++ name, st.symVector.length)],
              symVector := st.symVector ++ [freshUndefSym cfg ("__real_" ++ name)],
              diags := st.diags ++ (getVersionId cfg ("__real_" ++ name)).2 } with hTA
  have h1 : lookupIdx (st.symtabIdx ++ [("__real_" ++ name, st.symVector.length)])
      ("__wrap_" ++ name) = none := by
    rw [lookupIdx_append_of_none hwrap]
    simp [lookupIdx, real_ne_wrap name]
  have h2 : lookupIdx (st.symtabIdx ++ [("__real_" ++ name, st.symVector.length)])
      ("__real_" ++ name) = some st.symVector.length := by
    rw [lookupIdx_append_of_none hreal]
    simp [lookupIdx]
  have hA2 : T_A.lookup ("__wrap_" ++ name) = none := by
    rw [hTA]
    exact h1
  have hA3 := addUndefined1_fresh fuel cfg T_A ("__wrap_" ++ name) hA2
  set T_B : SymbolTable :=
    { T_A with symtabIdx := T_A.symtabIdx ++ [("__wrap_" ++ name, T_A.symVector.length)],
               symVector := T_A.symVector ++ [freshUndefSym cfg ("__wrap_" ++ name)],
               diags := T_A.diags ++ (getVersionId cfg ("__wrap_" ++ name)).2 } with hTB
  have hA4 : T_B.lookup ("__real_" ++ name) = some st.symVector.length := by
    rw [hTB, hTA]
    simp only [SymbolTable.lookup]
    exact lookupIdx_append_of_some h2 _
  have hA5 : T_B.lookup ("__wrap_" ++ name) = some (st.symVector.length + 1) := by
    rw [hTB, hTA]
    simp only [SymbolTable.lookup]
    rw [lookupIdx_append_of_none h1]
    simp [lookupIdx]
  have hA6 : T_B.lookup name = some i := by
    rw [hTB, hTA]
    simp only [SymbolTable.lookup]
    exact lookupIdx_append_of_some (lookupIdx_append_of_some hl _) _
  have hA7 : (T_B.getSym i).body = (st.getSym i).body := by
    rw [hTB, hTA]
    simp only [SymbolTable.getSym]
    rw [getD_append_lt _ _ _ _ (by simpa using Nat.lt_succ_of_lt hlen),
        getD_append_lt _ _ _ _ hlen]
  have hA8 : (T_B.getSym (st.symVector.length + 1)).body
      = SymbolBody.undefinedB ("__wrap_" ++ name) 0 0 none := by
    rw [hTB, hTA]
    simp only [SymbolTable.getSym]
    have hlen2 : (st.symVector ++ [freshUndefSym cfg ("__real_" ++ name)]).length
        = st.symVector.length + 1 := by simp
    rw [← hlen2, getD_append_len]
    rfl
  have hwrap1 : wrap fuel cfg st name
      = (T_B.setBody st.symVector.length ((st.getSym i).body)).setBody i
          (SymbolBody.undefinedB ("__wrap_" ++ name) 0 0 none) := by
    simp only [wrap, hl]
    rw [show addUndefined1 fuel cfg st ("__real_" ++ name) = T_A from hA1]
    rw [show addUndefined1 fuel cfg T_A ("__wrap_" ++ name) = T_B from hA3]
    rw [hA4, hA5]
    rw [hA7]
    norm_num
    rw [hA8]
  set w0 : SymbolBody := SymbolBody.undefinedB ("__wrap_" ++ name) 0 0 none with hw0
  set T_C : SymbolTable :=
    (T_B.setBody st.symVector.length ((st.getSym i).body)).setBody i w0 with hTC
  have hTBbodies : T_B.bodies
      = st.bodies ++ [SymbolBody.undefinedB ("__real_" ++ name) 0 0 none] ++ [w0] := by
    rw [hTB, hTA]
    simp [SymbolTable.bodies, freshUndefSym, freshFullSym]
  have hTBlen : T_B.symVector.length = st.symVector.length + 2 := by
    rw [hTB, hTA]
    simp
  have hTCbodies : T_C.bodies
      = ((st.bodies ++ [SymbolBody.undefinedB ("__real_" ++ name) 0 0 none] ++ [w0]).set
          st.symVector.length ((st.getSym i).body)).set i w0 := by
    rw [hTC, setBody_bodies, setBody_bodies, hTBbodies]
  have hTClen : T_C.symVector.length = st.symVector.length + 2 := by
    rw [hTC, setBody_length, setBody_length, hTBlen]
  have hblen : st.bodies.length = st.symVector.length := bodies_length st
  have hne1 : i ≠ st.symVector.length := Nat.ne_of_lt hlen
  have hne2 : i ≠ st.symVector.length + 1 := by omega
  have hCi : (T_C.getSym i).body = w0 := by
    rw [← bodies_getD, hTCbodies]
    exact getD_set_self _ _ _ _ (by simp [hblen]; omega)
  have hCr : (T_C.getSym st.symVector.length).body = (st.getSym i).body := by
    rw [← bodies_getD, hTCbodies]
    rw [getD_set_ne _ _ _ _ _ hne1]
    exact getD_set_self _ _ _ _ (by simp [hblen])
  have hCw : (T_C.getSym (st.symVector.length + 1)).body = w0 := by
    rw [← bodies_getD, hTCbodies]
    rw [getD_set_ne _ _ _ _ _ hne2]
    rw [getD_set_ne _ _ _ _ _ (by omega)]
    have h3 : (st.bodies ++ [SymbolBody.undefinedB ("__real_" ++ name) 0 0 none]).length
        = st.symVector.length + 1 := by simp [hblen]
    rw [← h3, getD_append_len]
  have hCname : T_C.lookup name = some i := hA6
  have hCreal : T_C.lookup ("__real_" ++ name) = some st.symVector.length := hA4
  have hCwrap : T_C.lookup ("__wrap_" ++ name) = some (st.symVector.length + 1) := hA5
  rw [hwrap1]
  -- second wrap
  obtain ⟨f41, f42, f43⟩ := addUndefined1_existing_frame fuel cfg T_C ("__real_" ++ name)
    st.symVector.length hCreal (by rw [hCr]; exact hnl)
  set st4 := addUndefined1 fuel cfg T_C ("__real_" ++ name) with hst4
  have h4wrap : st4.lookup ("__wrap_" ++ name) = some (st.symVector.length + 1) := by
    simp only [SymbolTable.lookup]
    rw [f41]
    exact hCwrap
  obtain ⟨f51, f52, f53⟩ := addUndefined1_existing_frame fuel cfg st4 ("__wrap_" ++ name)
    (st.symVector.length + 1) h4wrap
    (by rw [getSymBody_of_bodies_eq f42, hCw, hw0]; rfl)
  set st5 := addUndefined1 fuel cfg st4 ("__wrap_" ++ name) with hst5
  have h5real : st5.lookup ("__real_" ++ name) = some st.symVector.length := by
    simp only [SymbolTable.lookup]
    rw [f51, f41]
    exact hCreal
  have h5wrap : st5.lookup ("__wrap_" ++ name) = some (st.symVector.length + 1) := by
    simp only [SymbolTable.lookup]
    rw [f51]
    exact h4wrap
  have h5name : st5.lookup name = some i := by
    simp only [SymbolTable.lookup]
    rw [f51, f41]
    exact hCname
  have h5i : (st5.getSym i).body = w0 :=
    (getSymBody_of_bodies_eq f52 i).trans ((getSymBody_of_bodies_eq f42 i).trans hCi)
  have h5w : (st5.getSym (st.symVector.length + 1)).body = w0 :=
    (getSymBody_of_bodies_eq f52 _).trans ((getSymBody_of_bodies_eq f42 _).trans hCw)
  have h5len : st5.symVector.length = st.symVector.length + 2 :=
    f53.trans (f43.trans hTClen)
  simp only [wrap, hCname]
  rw [← hst4, ← hst5]
  rw [h5real, h5wrap]
  norm_num
  rw [h5i, h5w]
  set R : SymbolTable := (st5.setBody st.symVector.length w0).setBody i w0 with hR
  have hRbodies : R.bodies = (st5.bodies.set st.symVector.length w0).set i w0 := by
    rw [hR, setBody_bodies, setBody_bodies]
  have hRlook : ∀ x k, st5.lookup x = some k → R.lookup x = some k := by
    intro x k hx
    exact hx
  have h5blen : st5.bodies.length = st.symVector.length + 2 := by
    rw [bodies_length, h5len]
  refine ⟨?_, ?_, ?_⟩
  · rw [findBody_eq_of R name i (hRlook name i h5name), hRbodies]
    rw [getD_set_self _ _ _ _ (by simp [h5blen]; omega)]
  · rw [findBody_eq_of R ("__real_" ++ name) st.symVector.length
      (hRlook _ _ h5real), hRbodies]
    rw [getD_set_ne _ _ _ _ _ hne1]
    rw [getD_set_self _ _ _ _ (by simp [h5blen])]
  · rw [findBody_eq_of R ("__wrap_" ++ name) (st.symVector.length + 1)
      (hRlook _ _ h5wrap), hRbodies]
    rw [getD_set_ne _ _ _ _ _ hne2]
    rw [getD_set_ne _ _ _ _ _ (by omega)]
    rw [bodies_getD, h5w]

theorem wrap_twice_copy_chain_witness :
    (st9a.lookup "malloc" = some 0 ∧ 0 < st9a.symVector.length ∧
     st9a.lookup ("__real_" ++ "malloc") = none ∧
     st9a.lookup ("__wrap_" ++ "malloc") = none ∧
     (st9a.getSym 0).body.isLazy = false) ∧
    ((wrap 5 cfg0 (wrap 5 cfg0 st9a "malloc") "malloc").findBody "malloc"
      = some (SymbolBody.undefinedB ("__wrap_" ++ "malloc") 0 0 none) ∧
     (wrap 5 cfg0 (wrap 5 cfg0 st9a "malloc") "malloc").findBody ("__real_" ++ "malloc")
      = some (SymbolBody.undefinedB ("__wrap_" ++ "malloc") 0 0 none) ∧
     (wrap 5 cfg0 (wrap 5 cfg0 st9a "malloc") "malloc").findBody ("__wrap_" ++ "malloc")
      = some (SymbolBody.undefinedB ("__wrap_" ++ "malloc") 0 0 none)) :=
  ⟨⟨by decide, by decide, by decide, by decide, by decide⟩,
   wrap_twice_copy_chain 5 cfg0 st9a "malloc" 0
     (by decide) (by decide) (by decide) (by decide) (by decide)⟩
